import Mathlib

/-!
Verification of the mosfetlang/mosc parsing engine (the `parser` crate).

The development shallowly embeds the parts of the source the claims touch:
the cursor/reader position model (`src/parser/src/io/readers/{cursor,mod}.rs`),
spans (`span.rs`), the parsing context and diagnostics, the `cursor_manager`
combinator (`parsers/utils.rs`) and the grammar productions (identifiers,
comments, whitespace, numbers, statements, files).

Source strings are modelled as `List Char`; byte offsets are computed from
UTF-8 character sizes, and slicing is done at character granularity (every
offset the Rust code slices at lies on a character boundary, and the newline
byte `\n` never occurs inside a multi-byte UTF-8 character).
-/

set_option maxHeartbeats 1000000

namespace Mosc

/-- Byte length of one character in UTF-8, as Rust `char::len_utf8`. -/
def charLen (c : Char) : Nat := c.utf8Size

/-- Byte length of a character list, as Rust `str::len`. -/
def utf8Len (l : List Char) : Nat := (l.map charLen).sum

/-- A specific position inside a `Reader` (src/parser/src/io/readers/cursor.rs).
The session identity (`reader_id`) is irrelevant to the claims (we never mix
readers) and is omitted. -/
structure Cursor where
  offset : Nat
  char_offset : Nat
  line : Nat
  column : Nat
deriving DecidableEq, Repr

/-- A `String` reader that moves a cursor (src/parser/src/io/readers/mod.rs).
The optional file path is diagnostics-only and omitted. -/
structure Reader where
  content : List Char
  cursor : Cursor
deriving DecidableEq, Repr

/-- `Reader::new` / `Reader::from_str`: cursor at offset 0, line 1, column 1. -/
def Reader.new (content : List Char) : Reader :=
  { content := content, cursor := ⟨0, 0, 1, 1⟩ }

/-- `Reader::remaining_content`. -/
def Reader.remaining (r : Reader) : List Char :=
  r.content.drop r.cursor.char_offset

/-- `Reader::remaining_length` (length in bytes of the unread content). -/
def Reader.remaining_length (r : Reader) : Nat :=
  utf8Len r.remaining

/-- `Reader::consume`: consume `n` characters (the Rust code counts bytes, but
every call site consumes a whole number of characters), updating byte offset,
char offset, line and column exactly as the source does: lines grow by the
number of newline bytes consumed, and the column is either extended by the
consumed character count (no newline crossed) or recomputed as the number of
characters after the last consumed newline plus one. -/
def Reader.consume (r : Reader) (n : Nat) : Reader :=
  let consumed := r.remaining.take n
  let addLines := consumed.count '\n'
  let newColumn :=
    if addLines = 0 then r.cursor.column + consumed.length
    else (consumed.reverse.takeWhile (fun c => c ≠ '\n')).length + 1
  { content := r.content
    cursor :=
      { offset := r.cursor.offset + utf8Len consumed
        char_offset := r.cursor.char_offset + consumed.length
        line := r.cursor.line + addLines
        column := newColumn } }

/-- `Reader::continues_with`. -/
def Reader.continues_with (r : Reader) (text : List Char) : Bool :=
  text.isPrefixOf r.remaining

/-- `Reader::read`: consume `text` if the remaining input starts with it. -/
def Reader.read (r : Reader) (text : List Char) : Bool × Reader :=
  if r.continues_with text then (true, r.consume text.length)
  else (false, r)

/-- `Reader::check_inside`: membership in a sorted list of inclusive ranges,
with the source's early exit once a range's lower bound exceeds the char. -/
def check_inside (c : Char) : List (Char × Char) → Bool
  | [] => false
  | (lo, hi) :: rest =>
    if c < lo then false
    else if lo ≤ c && c ≤ hi then true
    else check_inside c rest

/-- `Reader::continues_with_one_of`: test the first remaining character. -/
def Reader.continues_with_one_of (r : Reader) (interval : List (Char × Char)) :
    Option Char :=
  match r.remaining with
  | [] => none
  | c :: _ => if check_inside c interval then some c else none

/-- `Reader::read_one_of`. -/
def Reader.read_one_of (r : Reader) (interval : List (Char × Char)) :
    Option Char × Reader :=
  match r.continues_with_one_of interval with
  | some c => (some c, r.consume 1)
  | none => (none, r)

/-- `Reader::continues_with_one_or_more_of`: the maximal run of characters in
the ranges (the source loop accumulates until the first failure). -/
def Reader.continues_with_one_or_more_of (r : Reader)
    (interval : List (Char × Char)) : Option (List Char) :=
  let run := r.remaining.takeWhile (fun c => check_inside c interval)
  if run.isEmpty then none else some run

/-- `Reader::read_one_or_more_of` (src/parser/src/io/readers/mod.rs), which the
grammar code invokes under the name `read_many_of`. -/
def Reader.read_many_of (r : Reader) (interval : List (Char × Char)) :
    Option (List Char) × Reader :=
  match r.continues_with_one_or_more_of interval with
  | some run => (some run, r.consume run.length)
  | none => (none, r)

/-- `Reader::save` / `Reader::save_cursor`. -/
def Reader.save_cursor (r : Reader) : Cursor := r.cursor

/-- `Reader::restore`. -/
def Reader.restore (r : Reader) (c : Cursor) : Reader :=
  { r with cursor := c }

/-- Index of the first occurrence of `pat` inside `hay`, scanning left to
right (helper for `read_until`). -/
def findSubIdx (pat : List Char) : List Char → Option Nat
  | [] => if pat.isPrefixOf ([] : List Char) then some 0 else none
  | c :: rest =>
    if pat.isPrefixOf (c :: rest) then some 0
    else (findSubIdx pat rest).map (· + 1)

/-- Modelled from the spec: `Reader::read_until(delimiter, inclusive?)` is
called by the comment parsers but its definition is absent from src/. Spec
§4.2: it scans forward to the first occurrence of a delimiter text, consuming
either up to or through it, and returns "not found" without moving the cursor
if the delimiter never appears before end of input. -/
def Reader.read_until (r : Reader) (text : List Char) (inclusive : Bool) :
    Option Unit × Reader :=
  match findSubIdx text r.remaining with
  | none => (none, r)
  | some i => (some (), r.consume (if inclusive then i + text.length else i))

/-- A Span: meta information about the location of a substring
(src/parser/src/io/readers/span.rs). -/
structure Span where
  whole : List Char
  start_cursor : Cursor
  end_cursor : Cursor
deriving DecidableEq, Repr

/-- `Span::content`: the delimited slice. -/
def Span.content (s : Span) : List Char :=
  (s.whole.take s.end_cursor.char_offset).drop s.start_cursor.char_offset

/-- `Span::content_before`. -/
def Span.content_before (s : Span) : List Char :=
  s.whole.take s.start_cursor.char_offset

/-- `Span::content_after`. -/
def Span.content_after (s : Span) : List Char :=
  s.whole.drop s.end_cursor.char_offset

/-- Index of the first `\n` (as `memchr` in `Span::lines`). -/
def firstNewlineIdx : List Char → Option Nat
  | [] => none
  | c :: rest =>
    if c = '\n' then some 0 else (firstNewlineIdx rest).map (· + 1)

/-- Index of the last `\n` (as `memrchr` in `Span::lines`). -/
def lastNewlineIdx : List Char → Option Nat
  | [] => none
  | c :: rest =>
    match lastNewlineIdx rest with
    | some i => some (i + 1)
    | none => if c = '\n' then some 0 else none

/-- `Span::lines`: the full source line(s) the span covers, found by scanning
backward from the start for the previous newline and forward from the end for
the next one. -/
def Span.lines (s : Span) : List Char :=
  let start_index :=
    match lastNewlineIdx s.content_before with
    | some v => v + 1
    | none => 0
  let end_index :=
    match firstNewlineIdx s.content_after with
    | some v => v + s.end_cursor.char_offset
    | none => s.whole.length
  (s.whole.take end_index).drop start_index

/-- `Reader::substring`: span between two cursors, order-normalized by byte
offset. -/
def Reader.substring (r : Reader) (a b : Cursor) : Span :=
  if a.offset ≤ b.offset then ⟨r.content, a, b⟩ else ⟨r.content, b, a⟩

/-- `Reader::substring_to_current`. -/
def Reader.substring_to_current (r : Reader) (a : Cursor) : Span :=
  if a.offset ≤ r.cursor.offset then ⟨r.content, a, r.cursor⟩
  else ⟨r.content, r.cursor, a⟩

/-- The errors parser methods record (constructors are the variants that the
grammar files in src/parser/src/parsers raise; the payloads of the older
`errors.rs` snapshot are rendering-only and omitted). -/
inductive ParserError where
  | NumberWithSeparatorAfterPrefix
  | NumberWithoutDigitsAfterPrefix
  | MultilineCommentWithoutEndToken
  | MissingNameInVariableDeclaration
  | MissingAssignOperatorInVariableDeclaration
  | MissingExpressionInVariableDeclaration
  | MissingExpressionInReturnStatement
  | NotAMosfetFile
  | ExpectedEOFInFile
  | TwoStatementsInSameLineInFile
deriving DecidableEq, Repr

/-- The warnings parsers can raise (src/parser/src/warnings.rs). -/
inductive ParserWarning where
  | NumberWithLeadingZeroes
  | NumberWithTrailingZeroes
deriving DecidableEq, Repr

/-- A diagnostic accumulated in the context: the structured `Log` the source
builds carries a kind tag (warning/error), a title and a source snippet; the
claims only depend on the kind tag (the machine-stable identifier code), which
is what we keep. -/
inductive Message where
  | warning (w : ParserWarning)
  | error (e : ParserError)
deriving DecidableEq, Repr

/-- Modelled from the spec: `ParserIgnoreConfig` is referenced by the context
and by `IntegerNumber::check_leading_zeroes` but its definition (config.rs) is
absent from src/. Spec §6: one boolean switch per suppressible warning class
(`number_leading_zeroes`, `number_trailing_zeroes`), each defaulting to
"warning enabled" (i.e. not ignored). -/
structure ParserIgnoreConfig where
  number_leading_zeroes : Bool := false
  number_trailing_zeroes : Bool := false
deriving DecidableEq, Repr

/-- The context of the parser (src/parser/src/context.rs). -/
structure ParserContext where
  messages : List Message := []
  ignore : ParserIgnoreConfig := {}
deriving DecidableEq, Repr

/-- `ParserContext::add_message`. -/
def ParserContext.add_message (ctx : ParserContext) (m : Message) : ParserContext :=
  { ctx with messages := ctx.messages ++ [m] }

/-- The type of errors a parser method can return
(src/parser/src/parsers/result.rs). -/
inductive ParserResultError where
  | NotFound
  | Error
deriving DecidableEq, Repr

/-- `ParserResult<T>` (src/parser/src/parsers/result.rs). A parser method is a
state transformer on `(Reader, ParserContext)`; the Rust `&mut` parameters are
threaded explicitly. -/
abbrev ParserResult (T : Type) := Except ParserResultError T

/-- The full outcome of a parser method: its result plus the reader and
context it leaves behind. -/
abbrev ParserOutcome (T : Type) := ParserResult T × Reader × ParserContext

/-- `cursor_manager` (src/parser/src/parsers/utils.rs): save the cursor before
invoking the rule body and restore it if and only if the body returns
`NotFound`; `Ok` and `Error` pass through with the reader as the body left it. -/
def cursor_manager {T : Type} (r : Reader) (ctx : ParserContext)
    (method : Reader → Cursor → ParserContext → ParserOutcome T) :
    ParserOutcome T :=
  let init_cursor := r.save_cursor
  match method r init_cursor ctx with
  | (Except.ok v, r', ctx') => (Except.ok v, r', ctx')
  | (Except.error e, r', ctx') =>
    if e = ParserResultError.NotFound then (Except.error e, r'.restore init_cursor, ctx')
    else (Except.error e, r', ctx')

/-! ### Basic facts about the reader primitives -/

/-- Characters take at least one byte in UTF-8. -/
theorem charLen_pos (c : Char) : 0 < charLen c := Char.utf8Size_pos c

theorem utf8Len_eq_zero {l : List Char} : utf8Len l = 0 ↔ l = [] := by
  cases l with
  | nil => simp [utf8Len]
  | cons c t =>
    simp only [utf8Len, List.map_cons, List.sum_cons, List.cons_ne_nil, iff_false]
    have := charLen_pos c
    omega

/-- Ordering on cursors used to state the forward-or-still invariant. -/
def Cursor.le (a b : Cursor) : Prop :=
  a.offset ≤ b.offset ∧ a.char_offset ≤ b.char_offset

theorem Cursor.le_refl (a : Cursor) : Cursor.le a a := ⟨Nat.le_refl _, Nat.le_refl _⟩

theorem Cursor.le_trans {a b c : Cursor} (h₁ : Cursor.le a b) (h₂ : Cursor.le b c) :
    Cursor.le a c :=
  ⟨Nat.le_trans h₁.1 h₂.1, Nat.le_trans h₁.2 h₂.2⟩

theorem Reader.consume_content (r : Reader) (n : Nat) :
    (r.consume n).content = r.content := rfl

theorem Reader.restore_content (r : Reader) (c : Cursor) :
    (r.restore c).content = r.content := rfl

theorem Reader.consume_char_offset (r : Reader) (n : Nat) :
    (r.consume n).cursor.char_offset
      = r.cursor.char_offset + min n r.remaining.length := by
  simp [Reader.consume, List.length_take]

/-- Dropping `m` then clamped `n` equals dropping `m` then `n`. -/
theorem drop_add_min (l : List Char) (m n : Nat) :
    l.drop (m + min n (l.length - m)) = (l.drop m).drop n := by
  rw [List.drop_drop]
  rcases Nat.le_total n (l.length - m) with h | h
  · rw [Nat.min_eq_left h]
  · rw [Nat.min_eq_right h]
    have h1 : l.drop (m + (l.length - m)) = [] := List.drop_eq_nil_of_le (by omega)
    have h2 : l.drop (m + n) = [] := List.drop_eq_nil_of_le (by omega)
    rw [h1, h2]

theorem Reader.consume_remaining (r : Reader) (n : Nat) :
    (r.consume n).remaining = r.remaining.drop n := by
  have h : (r.consume n).remaining
      = r.content.drop
          (r.cursor.char_offset + min n (r.content.length - r.cursor.char_offset)) := by
    simp [Reader.remaining, Reader.consume, List.length_take, List.length_drop]
  rw [h, drop_add_min]
  rfl

theorem Reader.cursor_le_consume (r : Reader) (n : Nat) :
    Cursor.le r.cursor (r.consume n).cursor := by
  refine ⟨?_, ?_⟩
  · simp [Reader.consume]
  · rw [Reader.consume_char_offset]; omega

/-- Consuming `n` characters with at least `n` available advances the char
offset by exactly `n`. -/
theorem Reader.consume_char_offset_of_le (r : Reader) (n : Nat)
    (h : n ≤ r.remaining.length) :
    (r.consume n).cursor.char_offset = r.cursor.char_offset + n := by
  rw [Reader.consume_char_offset, Nat.min_eq_left h]

theorem Reader.remaining_length_eq (r : Reader) :
    r.remaining.length = r.content.length - r.cursor.char_offset := by
  simp [Reader.remaining]

/-- A cursor-monotone step with equal content never grows the remaining input. -/
theorem remaining_le_of_cursor_le {r r' : Reader}
    (hc : r'.content = r.content) (h : Cursor.le r.cursor r'.cursor) :
    r'.remaining.length ≤ r.remaining.length := by
  obtain ⟨-, h2⟩ := h
  rw [Reader.remaining_length_eq, Reader.remaining_length_eq, hc]
  omega

/-! Facts about `read`. -/

theorem Reader.read_false {r : Reader} {text : List Char}
    (h : (r.read text).1 = false) : (r.read text).2 = r := by
  by_cases hc : r.continues_with text = true
  · exfalso; simp [Reader.read, hc] at h
  · simp [Reader.read, hc]

theorem Reader.read_true {r : Reader} {text : List Char}
    (h : (r.read text).1 = true) :
    r.remaining = text ++ (r.read text).2.remaining ∧
      (r.read text).2 = r.consume text.length := by
  by_cases hc : r.continues_with text = true
  · have hp : text <+: r.remaining := by
      simpa [Reader.continues_with, List.isPrefixOf_iff_prefix] using hc
    obtain ⟨t, ht⟩ := hp
    have h2 : (r.read text).2 = r.consume text.length := by
      simp [Reader.read, hc]
    refine ⟨?_, h2⟩
    rw [h2, Reader.consume_remaining, ← ht, List.drop_left]
  · exfalso; simp [Reader.read, hc] at h

theorem Reader.read_content (r : Reader) (text : List Char) :
    (r.read text).2.content = r.content := by
  unfold Reader.read
  split <;> rfl

theorem Reader.cursor_le_read (r : Reader) (text : List Char) :
    Cursor.le r.cursor (r.read text).2.cursor := by
  unfold Reader.read
  split
  · exact r.cursor_le_consume _
  · exact Cursor.le_refl _

/-- A successful `read` of nonempty text strictly shrinks the remaining input. -/
theorem Reader.read_true_progress {r : Reader} {text : List Char}
    (h : (r.read text).1 = true) (hne : text ≠ []) :
    (r.read text).2.remaining.length < r.remaining.length := by
  obtain ⟨hsplit, -⟩ := Reader.read_true h
  have := congrArg List.length hsplit
  simp only [List.length_append] at this
  have : r.remaining.length = text.length + (r.read text).2.remaining.length := this
  have hpos : 0 < text.length := List.length_pos.mpr hne
  omega

/-! Facts about `read_one_of`. -/

theorem Reader.read_one_of_none {r : Reader} {iv : List (Char × Char)}
    (h : (r.read_one_of iv).1 = none) : (r.read_one_of iv).2 = r := by
  unfold Reader.read_one_of at h ⊢
  revert h
  cases hc : r.continues_with_one_of iv with
  | some c => intro h; simp at h
  | none => intro h; rfl

theorem Reader.read_one_of_some {r : Reader} {iv : List (Char × Char)} {c : Char}
    (h : (r.read_one_of iv).1 = some c) :
    r.remaining = c :: (r.read_one_of iv).2.remaining ∧
      (r.read_one_of iv).2 = r.consume 1 ∧ check_inside c iv = true := by
  unfold Reader.read_one_of at h ⊢
  revert h
  cases hc : r.continues_with_one_of iv with
  | none => intro h; simp at h
  | some c' =>
    intro h
    obtain rfl : c' = c := by simpa using h
    have hfacts : (∃ t, r.remaining = c' :: t) ∧ check_inside c' iv = true := by
      unfold Reader.continues_with_one_of at hc
      revert hc
      cases hl : r.remaining with
      | nil => intro hc; simp at hc
      | cons d t =>
        intro hc
        simp only at hc
        split at hc
        case isTrue hin =>
          obtain rfl : d = c' := by simpa using hc
          exact ⟨⟨t, rfl⟩, hin⟩
        case isFalse => simp at hc
    obtain ⟨⟨t, ht⟩, hin⟩ := hfacts
    refine ⟨?_, rfl, hin⟩
    rw [Reader.consume_remaining, ht]
    rfl

theorem Reader.read_one_of_content (r : Reader) (iv : List (Char × Char)) :
    (r.read_one_of iv).2.content = r.content := by
  unfold Reader.read_one_of
  split <;> rfl

theorem Reader.cursor_le_read_one_of (r : Reader) (iv : List (Char × Char)) :
    Cursor.le r.cursor (r.read_one_of iv).2.cursor := by
  unfold Reader.read_one_of
  split
  · exact r.cursor_le_consume _
  · exact Cursor.le_refl _

/-! Facts about `read_many_of`. -/

theorem Reader.read_many_of_none {r : Reader} {iv : List (Char × Char)}
    (h : (r.read_many_of iv).1 = none) : (r.read_many_of iv).2 = r := by
  unfold Reader.read_many_of at h ⊢
  revert h
  cases hc : r.continues_with_one_or_more_of iv with
  | some run => intro h; simp at h
  | none => intro h; rfl

theorem Reader.read_many_of_some {r : Reader} {iv : List (Char × Char)}
    {run : List Char} (h : (r.read_many_of iv).1 = some run) :
    run = r.remaining.takeWhile (fun c => check_inside c iv) ∧ run ≠ [] ∧
      (r.read_many_of iv).2 = r.consume run.length := by
  unfold Reader.read_many_of at h ⊢
  revert h
  cases hc : r.continues_with_one_or_more_of iv with
  | none => intro h; simp at h
  | some run' =>
    intro h
    have hrr : run' = run := by simpa using h
    rw [← hrr]
    unfold Reader.continues_with_one_or_more_of at hc
    simp only at hc
    split at hc
    case isTrue => simp at hc
    case isFalse hne =>
      have hrun : run' = r.remaining.takeWhile (fun c => check_inside c iv) := by
        simpa using hc.symm
      refine ⟨hrun, ?_, rfl⟩
      rw [hrun]
      simpa [List.isEmpty_iff] using hne

theorem Reader.read_many_of_content (r : Reader) (iv : List (Char × Char)) :
    (r.read_many_of iv).2.content = r.content := by
  unfold Reader.read_many_of
  split <;> rfl

theorem Reader.cursor_le_read_many_of (r : Reader) (iv : List (Char × Char)) :
    Cursor.le r.cursor (r.read_many_of iv).2.cursor := by
  unfold Reader.read_many_of
  split
  · exact r.cursor_le_consume _
  · exact Cursor.le_refl _

theorem Reader.read_many_of_some_progress {r : Reader} {iv : List (Char × Char)}
    {run : List Char} (h : (r.read_many_of iv).1 = some run) :
    (r.read_many_of iv).2.remaining.length < r.remaining.length := by
  obtain ⟨hrun, hne, heq⟩ := Reader.read_many_of_some h
  rw [heq, Reader.consume_remaining]
  have hlen : run.length ≤ r.remaining.length := by
    rw [hrun]; exact (List.takeWhile_prefix _).length_le
  have hpos : 0 < run.length := List.length_pos.mpr hne
  rw [List.length_drop]
  omega

/-! Facts about `read_until`. -/

theorem Reader.read_until_none {r : Reader} {text : List Char} {inc : Bool}
    (h : (r.read_until text inc).1 = none) : (r.read_until text inc).2 = r := by
  unfold Reader.read_until at h ⊢
  revert h
  cases hc : findSubIdx text r.remaining with
  | some i => intro h; simp at h
  | none => intro h; rfl

theorem Reader.read_until_content (r : Reader) (text : List Char) (inc : Bool) :
    (r.read_until text inc).2.content = r.content := by
  unfold Reader.read_until
  split <;> rfl

theorem Reader.cursor_le_read_until (r : Reader) (text : List Char) (inc : Bool) :
    Cursor.le r.cursor (r.read_until text inc).2.cursor := by
  unfold Reader.read_until
  split
  · exact Cursor.le_refl _
  · exact r.cursor_le_consume _

/-! ### The forward-or-still relation between reader states -/

/-- One reader state is reachable from another without touching the content
and without moving the cursor backwards. -/
def Steps (r r' : Reader) : Prop :=
  r'.content = r.content ∧ Cursor.le r.cursor r'.cursor

theorem Steps.refl (r : Reader) : Steps r r := ⟨rfl, Cursor.le_refl _⟩

theorem Steps.trans {a b c : Reader} (h₁ : Steps a b) (h₂ : Steps b c) : Steps a c :=
  ⟨h₂.1.trans h₁.1, Cursor.le_trans h₁.2 h₂.2⟩

theorem Steps.consume (r : Reader) (n : Nat) : Steps r (r.consume n) :=
  ⟨rfl, r.cursor_le_consume n⟩

theorem Steps.read (r : Reader) (text : List Char) : Steps r (r.read text).2 :=
  ⟨r.read_content text, r.cursor_le_read text⟩

theorem Steps.read_one_of (r : Reader) (iv : List (Char × Char)) :
    Steps r (r.read_one_of iv).2 :=
  ⟨r.read_one_of_content iv, r.cursor_le_read_one_of iv⟩

theorem Steps.read_many_of (r : Reader) (iv : List (Char × Char)) :
    Steps r (r.read_many_of iv).2 :=
  ⟨r.read_many_of_content iv, r.cursor_le_read_many_of iv⟩

theorem Steps.read_until (r : Reader) (text : List Char) (inc : Bool) :
    Steps r (r.read_until text inc).2 :=
  ⟨r.read_until_content text inc, r.cursor_le_read_until text inc⟩

/-- Restoring a later reader to the earlier reader's own cursor is a step
from the earlier reader. -/
theorem Steps.restore_to {a b : Reader} (h : Steps a b) :
    Steps a (b.restore a.cursor) :=
  ⟨h.1, Cursor.le_refl _⟩

theorem Steps.remaining_le {a b : Reader} (h : Steps a b) :
    b.remaining.length ≤ a.remaining.length :=
  remaining_le_of_cursor_le h.1 h.2

/-! ### Grammar productions: identifiers
(src/parser/src/parsers/commons/identifier.rs) -/

def HEAD_CHARS : List (Char × Char) := [('A', 'Z'), ('_', '_'), ('a', 'z')]

def BODY_CHARS : List (Char × Char) := [('0', '9'), ('A', 'Z'), ('_', '_'), ('a', 'z')]

/-- A valid name in the Mosfet language. -/
structure Identifier where
  span : Span
deriving DecidableEq, Repr

def Identifier.content (i : Identifier) : List Char := i.span.content

/-- The closure body of `Identifier::parse`: a head character followed by the
maximal run of body characters (whose own result is discarded). -/
def Identifier.parse_body (r0 : Reader) (init : Cursor) (ctx0 : ParserContext) :
    ParserOutcome Identifier :=
  match r0.read_one_of HEAD_CHARS with
  | (none, r1) => (Except.error ParserResultError.NotFound, r1, ctx0)
  | (some _, r1) =>
    let r2 := (r1.read_many_of BODY_CHARS).2
    (Except.ok ⟨r2.substring_to_current init⟩, r2, ctx0)

/-- `Identifier::parse`. -/
def Identifier.parse (r : Reader) (ctx : ParserContext) : ParserOutcome Identifier :=
  cursor_manager r ctx Identifier.parse_body

/-- `Identifier::parse_keyword`: parse a full identifier and compare it with
the expected keyword, rolling the reader back when it differs. -/
def Identifier.parse_keyword (r : Reader) (ctx : ParserContext)
    (keyword : List Char) : Bool × Reader × ParserContext :=
  let init_cursor := r.save_cursor
  match Identifier.parse r ctx with
  | (Except.ok id, r1, c1) =>
    if id.content = keyword then (true, r1, c1)
    else (false, r1.restore init_cursor, c1)
  | (Except.error _, r1, c1) => (false, r1, c1)

/-! ### Grammar productions: comments
(src/parser/src/parsers/commons/comments.rs) -/

def SINGLE_LINE_COMMENT_TOKEN : List Char := ['#', ' ']

def MULTILINE_COMMENT_TOKEN : List Char := ['#']

def MULTILINE_COMMENT_REPEAT_TOKEN : List Char := ['+']

/-- A valid comment in the Mosfet language. -/
structure Comment where
  span : Span
  is_multiline_type : Bool
  message : Span
  repeated_tokens : Nat
deriving DecidableEq, Repr

/-- `Comment::immediately_closed`. -/
def Comment.immediately_closed (c : Comment) : Bool :=
  c.is_multiline_type && c.message.content.isEmpty

/-- `Comment::is_multiline`: whether the comment spans several source lines. -/
def Comment.is_multiline (c : Comment) : Bool :=
  c.message.start_cursor.line != c.message.end_cursor.line

/-- The opening-token loop of `Comment::parse_multiline`: read repeat markers
one at a time until one is missing, counting them. -/
def Comment.read_repeats (r : Reader) : Nat × Reader :=
  match h : r.read MULTILINE_COMMENT_REPEAT_TOKEN with
  | (true, r') =>
    let rr := Comment.read_repeats r'
    (rr.1 + 1, rr.2)
  | (false, _) => (0, r)
termination_by r.remaining.length
decreasing_by
  have h1 : (r.read MULTILINE_COMMENT_REPEAT_TOKEN).1 = true := by rw [h]
  have h2 : (r.read MULTILINE_COMMENT_REPEAT_TOKEN).2 = r' := by rw [h]
  have hp := Reader.read_true_progress h1 (by decide)
  rw [h2] at hp
  exact hp

/-- The closure body of `Comment::parse_inline`: the `"# "` token, then
everything through the end of the line. -/
def Comment.parse_inline_body (r0 : Reader) (init : Cursor) (ctx0 : ParserContext) :
    ParserOutcome Comment :=
  match r0.read SINGLE_LINE_COMMENT_TOKEN with
  | (false, r1) => (Except.error ParserResultError.NotFound, r1, ctx0)
  | (true, r1) =>
    let init_message := r1.save_cursor
    let r2 := (r1.read_until ['\n'] true).2
    (Except.ok
      { span := r2.substring_to_current init
        is_multiline_type := false
        message := r2.substring_to_current init_message
        repeated_tokens := 0 }, r2, ctx0)

/-- `Comment::parse_inline`. -/
def Comment.parse_inline (r : Reader) (ctx : ParserContext) : ParserOutcome Comment :=
  cursor_manager r ctx Comment.parse_inline_body

/-- The closure body of `Comment::parse_multiline`: the `"#"` token, one or
more `"+"` repeat markers (their count fixes the close token), then either an
immediate `"#"` close or everything up to the matching close token; a missing
close token is a hard error. -/
def Comment.parse_multiline_body (r0 : Reader) (init : Cursor)
    (ctx0 : ParserContext) : ParserOutcome Comment :=
  match r0.read MULTILINE_COMMENT_TOKEN with
  | (false, r1) => (Except.error ParserResultError.NotFound, r1, ctx0)
  | (true, r1) =>
    let reps := Comment.read_repeats r1
    if reps.1 = 0 then (Except.error ParserResultError.NotFound, reps.2, ctx0)
    else
      let close_token := List.replicate reps.1 '+' ++ ['#']
      let r2 := reps.2
      let init_message := r2.save_cursor
      match r2.read MULTILINE_COMMENT_TOKEN with
      | (true, r3) =>
        (Except.ok
          { span := r3.substring_to_current init
            is_multiline_type := true
            message := r3.substring init_message init_message
            repeated_tokens := close_token.length - 1 }, r3, ctx0)
      | (false, r3) =>
        match r3.read_until close_token false with
        | (none, r4) =>
          (Except.error ParserResultError.Error, r4,
            ctx0.add_message (Message.error ParserError.MultilineCommentWithoutEndToken))
        | (some _, r4) =>
          let end_message := r4.save_cursor
          let r5 := (r4.read close_token).2
          (Except.ok
            { span := r5.substring_to_current init
              is_multiline_type := true
              message := r5.substring init_message end_message
              repeated_tokens := close_token.length - 1 }, r5, ctx0)

/-- `Comment::parse_multiline`. -/
def Comment.parse_multiline (r : Reader) (ctx : ParserContext) : ParserOutcome Comment :=
  cursor_manager r ctx Comment.parse_multiline_body

/-! ### Lifting forward-or-still facts through `cursor_manager` -/

theorem cursor_manager_ok {T : Type} {r : Reader} {ctx : ParserContext}
    {body : Reader → Cursor → ParserContext → ParserOutcome T}
    {v : T} {r' : Reader} {ctx' : ParserContext}
    (h : body r r.cursor ctx = (Except.ok v, r', ctx')) :
    cursor_manager r ctx body = (Except.ok v, r', ctx') := by
  unfold cursor_manager
  show (match body r r.cursor ctx with
    | (Except.ok v, r', ctx') => (Except.ok v, r', ctx')
    | (Except.error e, r', ctx') =>
      if e = ParserResultError.NotFound then (Except.error e, r'.restore r.cursor, ctx')
      else (Except.error e, r', ctx')) = _
  rw [h]

theorem cursor_manager_notFound {T : Type} {r : Reader} {ctx : ParserContext}
    {body : Reader → Cursor → ParserContext → ParserOutcome T}
    {r' : Reader} {ctx' : ParserContext}
    (h : body r r.cursor ctx = (Except.error ParserResultError.NotFound, r', ctx')) :
    cursor_manager r ctx body
      = (Except.error ParserResultError.NotFound, r'.restore r.cursor, ctx') := by
  unfold cursor_manager
  show (match body r r.cursor ctx with
    | (Except.ok v, r', ctx') => (Except.ok v, r', ctx')
    | (Except.error e, r', ctx') =>
      if e = ParserResultError.NotFound then (Except.error e, r'.restore r.cursor, ctx')
      else (Except.error e, r', ctx')) = _
  rw [h]
  rfl

theorem cursor_manager_error {T : Type} {r : Reader} {ctx : ParserContext}
    {body : Reader → Cursor → ParserContext → ParserOutcome T}
    {r' : Reader} {ctx' : ParserContext}
    (h : body r r.cursor ctx = (Except.error ParserResultError.Error, r', ctx')) :
    cursor_manager r ctx body = (Except.error ParserResultError.Error, r', ctx') := by
  unfold cursor_manager
  show (match body r r.cursor ctx with
    | (Except.ok v, r', ctx') => (Except.ok v, r', ctx')
    | (Except.error e, r', ctx') =>
      if e = ParserResultError.NotFound then (Except.error e, r'.restore r.cursor, ctx')
      else (Except.error e, r', ctx')) = _
  rw [h]
  rfl

/-- Exhaustive case analysis of a `cursor_manager`-wrapped rule in terms of
its body's outcome. -/
theorem cursor_manager_cases {T : Type} (r : Reader) (ctx : ParserContext)
    (body : Reader → Cursor → ParserContext → ParserOutcome T) :
    (∃ v r' ctx', body r r.cursor ctx = (Except.ok v, r', ctx') ∧
        cursor_manager r ctx body = (Except.ok v, r', ctx')) ∨
    (∃ r' ctx', body r r.cursor ctx = (Except.error ParserResultError.NotFound, r', ctx') ∧
        cursor_manager r ctx body
          = (Except.error ParserResultError.NotFound, r'.restore r.cursor, ctx')) ∨
    (∃ r' ctx', body r r.cursor ctx = (Except.error ParserResultError.Error, r', ctx') ∧
        cursor_manager r ctx body = (Except.error ParserResultError.Error, r', ctx')) := by
  rcases hout : body r r.cursor ctx with ⟨res, r', ctx'⟩
  cases res with
  | ok v => exact Or.inl ⟨v, r', ctx', rfl, cursor_manager_ok hout⟩
  | error e =>
    cases e with
    | NotFound => exact Or.inr (Or.inl ⟨r', ctx', rfl, cursor_manager_notFound hout⟩)
    | Error => exact Or.inr (Or.inr ⟨r', ctx', rfl, cursor_manager_error hout⟩)

/-- `cursor_manager` preserves the forward-or-still property of its body. -/
theorem cursor_manager_steps {T : Type} {r : Reader} {ctx : ParserContext}
    {body : Reader → Cursor → ParserContext → ParserOutcome T}
    (hb : Steps r (body r r.cursor ctx).2.1) :
    Steps r (cursor_manager r ctx body).2.1 := by
  rcases cursor_manager_cases r ctx body with
    ⟨v, r', c', hbody, heq⟩ | ⟨r', c', hbody, heq⟩ | ⟨r', c', hbody, heq⟩ <;>
    rw [hbody] at hb <;> rw [heq]
  · exact hb
  · exact Steps.restore_to hb
  · exact hb

/-! ### Forward-or-still and progress facts for identifiers and comments -/

theorem Identifier.parse_steps_identifier (r : Reader) (ctx : ParserContext) :
    Steps r (Identifier.parse r ctx).2.1 := by
  unfold Identifier.parse
  apply cursor_manager_steps
  unfold Identifier.parse_body
  rcases h1 : r.read_one_of HEAD_CHARS with ⟨o, r1⟩
  have hs1 : Steps r r1 := by
    have := Steps.read_one_of r HEAD_CHARS
    rw [h1] at this
    exact this
  cases o with
  | none => exact hs1
  | some c => exact hs1.trans (Steps.read_many_of r1 BODY_CHARS)

/-- The first remaining character read via `read_one_of` strictly shrinks the
remaining input. -/
theorem Reader.read_one_of_some_progress {r : Reader} {iv : List (Char × Char)}
    {c : Char} (h : (r.read_one_of iv).1 = some c) :
    (r.read_one_of iv).2.remaining.length < r.remaining.length := by
  obtain ⟨hcons, heq, -⟩ := Reader.read_one_of_some h
  rw [heq, Reader.consume_remaining]
  rw [hcons]
  simp

/-- A successfully parsed identifier consumed at least one character. -/
theorem Identifier.parse_ok_progress_identifier {r : Reader} {ctx : ParserContext}
    {i : Identifier} (h : (Identifier.parse r ctx).1 = Except.ok i) :
    (Identifier.parse r ctx).2.1.remaining.length < r.remaining.length := by
  unfold Identifier.parse at h ⊢
  rcases cursor_manager_cases r ctx Identifier.parse_body with
    ⟨v, r', c', hbody, heq⟩ | ⟨r', c', hbody, heq⟩ | ⟨r', c', hbody, heq⟩ <;>
    rw [heq] at h ⊢
  · simp only
    unfold Identifier.parse_body at hbody
    revert hbody
    rcases h1 : r.read_one_of HEAD_CHARS with ⟨o, r1⟩
    cases o with
    | none => intro hbody; simp at hbody
    | some c =>
      intro hbody
      have hr' : r' = (r1.read_many_of BODY_CHARS).2 := by
        have := congrArg (fun t => t.2.1) hbody
        simpa using this.symm
      have hone : (r.read_one_of HEAD_CHARS).1 = some c := by rw [h1]
      have hlt : r1.remaining.length < r.remaining.length := by
        have := Reader.read_one_of_some_progress hone
        rw [h1] at this
        exact this
      have hle := (Steps.read_many_of r1 BODY_CHARS).remaining_le
      rw [hr']
      omega
  · simp at h
  · simp at h

theorem Identifier.parse_keyword_steps (r : Reader) (ctx : ParserContext)
    (kw : List Char) : Steps r (Identifier.parse_keyword r ctx kw).2.1 := by
  unfold Identifier.parse_keyword
  rcases h1 : Identifier.parse r ctx with ⟨res, r1, c1⟩
  have hs : Steps r r1 := by
    have := Identifier.parse_steps_identifier r ctx
    rw [h1] at this
    exact this
  cases res with
  | ok id =>
    simp only
    by_cases hkw : id.content = kw
    · simp only [if_pos hkw]; exact hs
    · simp only [if_neg hkw]
      exact Steps.restore_to hs
  | error e => exact hs

/-- A keyword match consumed at least one character. -/
theorem Identifier.parse_keyword_true_progress {r : Reader} {ctx : ParserContext}
    {kw : List Char} (h : (Identifier.parse_keyword r ctx kw).1 = true) :
    (Identifier.parse_keyword r ctx kw).2.1.remaining.length < r.remaining.length := by
  unfold Identifier.parse_keyword at h ⊢
  revert h
  rcases h1 : Identifier.parse r ctx with ⟨res, r1, c1⟩
  intro h
  cases res with
  | ok id =>
    simp only
    by_cases hkw : id.content = kw
    · simp only [if_pos hkw]
      have := Identifier.parse_ok_progress_identifier
        (by rw [h1] : (Identifier.parse r ctx).1 = Except.ok id)
      rw [h1] at this
      exact this
    · simp only [if_neg hkw] at h
      exact Bool.noConfusion h
  | error e => simp at h

theorem Comment.read_repeats_steps (r : Reader) : Steps r (Comment.read_repeats r).2 := by
  induction r using Comment.read_repeats.induct with
  | case1 r r' hread ih =>
    rw [Comment.read_repeats.eq_def]
    revert hread
    rcases hr : r.read MULTILINE_COMMENT_REPEAT_TOKEN with ⟨b, r2⟩
    intro hread
    obtain ⟨rfl, rfl⟩ : b = true ∧ r2 = r' := by
      refine ⟨congrArg Prod.fst hread, congrArg (fun t => t.2) hread⟩
    simp only
    have hr' : Steps r (r.read MULTILINE_COMMENT_REPEAT_TOKEN).2 :=
      Steps.read r MULTILINE_COMMENT_REPEAT_TOKEN
    rw [hr] at hr'
    exact hr'.trans ih
  | case2 r r2 hread =>
    rw [Comment.read_repeats.eq_def]
    revert hread
    rcases hr : r.read MULTILINE_COMMENT_REPEAT_TOKEN with ⟨b, r3⟩
    intro hread
    obtain rfl : b = false := congrArg Prod.fst hread
    exact Steps.refl r

theorem Comment.parse_inline_steps_comment (r : Reader) (ctx : ParserContext) :
    Steps r (Comment.parse_inline r ctx).2.1 := by
  unfold Comment.parse_inline
  apply cursor_manager_steps
  unfold Comment.parse_inline_body
  rcases h1 : r.read SINGLE_LINE_COMMENT_TOKEN with ⟨b, r1⟩
  have hs1 : Steps r r1 := by
    have := Steps.read r SINGLE_LINE_COMMENT_TOKEN
    rw [h1] at this
    exact this
  cases b with
  | false => exact hs1
  | true => exact hs1.trans (Steps.read_until r1 ['\n'] true)

theorem Comment.parse_multiline_steps_comment (r : Reader) (ctx : ParserContext) :
    Steps r (Comment.parse_multiline r ctx).2.1 := by
  unfold Comment.parse_multiline
  apply cursor_manager_steps
  unfold Comment.parse_multiline_body
  rcases h1 : r.read MULTILINE_COMMENT_TOKEN with ⟨b, r1⟩
  have hs1 : Steps r r1 := by
    have := Steps.read r MULTILINE_COMMENT_TOKEN
    rw [h1] at this
    exact this
  cases b with
  | false => exact hs1
  | true =>
    simp only
    have hs2 : Steps r (Comment.read_repeats r1).2 :=
      hs1.trans (Comment.read_repeats_steps r1)
    by_cases hz : (Comment.read_repeats r1).1 = 0
    · simpa only [if_pos hz] using hs2
    · simp only [if_neg hz]
      rcases h2 : (Comment.read_repeats r1).2.read MULTILINE_COMMENT_TOKEN with ⟨b2, r3⟩
      have hs3 : Steps r r3 := by
        have := Steps.read (Comment.read_repeats r1).2 MULTILINE_COMMENT_TOKEN
        rw [h2] at this
        exact hs2.trans this
      cases b2 with
      | true => exact hs3
      | false =>
        simp only
        rcases h3 : r3.read_until (List.replicate (Comment.read_repeats r1).1 '+' ++ ['#']) false
          with ⟨o3, r4⟩
        have hs4 : Steps r r4 := by
          have := Steps.read_until r3
            (List.replicate (Comment.read_repeats r1).1 '+' ++ ['#']) false
          rw [h3] at this
          exact hs3.trans this
        cases o3 with
        | none => exact hs4
        | some u =>
          exact hs4.trans
            (Steps.read r4 (List.replicate (Comment.read_repeats r1).1 '+' ++ ['#']))

/-- A successfully parsed multiline comment consumed at least one character. -/
theorem Comment.parse_multiline_ok_progress {r : Reader} {ctx : ParserContext}
    {c : Comment} (h : (Comment.parse_multiline r ctx).1 = Except.ok c) :
    (Comment.parse_multiline r ctx).2.1.remaining.length < r.remaining.length := by
  unfold Comment.parse_multiline at h ⊢
  rcases cursor_manager_cases r ctx Comment.parse_multiline_body with
    ⟨v, r', c', hbody, heq⟩ | ⟨r', c', hbody, heq⟩ | ⟨r', c', hbody, heq⟩ <;>
    rw [heq] at h ⊢
  · simp only
    unfold Comment.parse_multiline_body at hbody
    revert hbody
    rcases h1 : r.read MULTILINE_COMMENT_TOKEN with ⟨b, r1⟩
    cases b with
    | false => intro hbody; simp at hbody
    | true =>
      intro hbody
      simp only at hbody
      have hlt1 : r1.remaining.length < r.remaining.length := by
        have hb : (r.read MULTILINE_COMMENT_TOKEN).1 = true := by rw [h1]
        have := Reader.read_true_progress hb (by decide)
        rw [h1] at this
        exact this
      have hs2 : (Comment.read_repeats r1).2.remaining.length ≤ r1.remaining.length :=
        (Comment.read_repeats_steps r1).remaining_le
      by_cases hz : (Comment.read_repeats r1).1 = 0
      · rw [if_pos hz] at hbody; simp at hbody
      · rw [if_neg hz] at hbody
        revert hbody
        rcases h2 : (Comment.read_repeats r1).2.read MULTILINE_COMMENT_TOKEN with ⟨b2, r3⟩
        have hs3 : r3.remaining.length ≤ (Comment.read_repeats r1).2.remaining.length := by
          have := Steps.read (Comment.read_repeats r1).2 MULTILINE_COMMENT_TOKEN
          rw [h2] at this
          exact this.remaining_le
        cases b2 with
        | true =>
          intro hbody
          have hr' : r' = r3 := by
            have := congrArg (fun t => t.2.1) hbody
            simpa using this.symm
          rw [hr']
          omega
        | false =>
          rcases h3 : r3.read_until
              (List.replicate (Comment.read_repeats r1).1 '+' ++ ['#']) false
            with ⟨o3, r4⟩
          have hs4 : r4.remaining.length ≤ r3.remaining.length := by
            have := Steps.read_until r3
              (List.replicate (Comment.read_repeats r1).1 '+' ++ ['#']) false
            rw [h3] at this
            exact this.remaining_le
          cases o3 with
          | none =>
            intro hbody
            simp only at hbody
            rw [h3] at hbody
            simp at hbody
          | some u =>
            intro hbody
            simp only at hbody
            rw [h3] at hbody
            have hr' : r' = (r4.read
                (List.replicate (Comment.read_repeats r1).1 '+' ++ ['#'])).2 := by
              have := congrArg (fun t => t.2.1) hbody
              simpa using this.symm
            have hs5 := (Steps.read r4
              (List.replicate (Comment.read_repeats r1).1 '+' ++ ['#'])).remaining_le
            rw [hr']
            omega
  · simp at h
  · simp at h

/-- A successfully parsed inline comment consumed at least one character. -/
theorem Comment.parse_inline_ok_progress {r : Reader} {ctx : ParserContext}
    {c : Comment} (h : (Comment.parse_inline r ctx).1 = Except.ok c) :
    (Comment.parse_inline r ctx).2.1.remaining.length < r.remaining.length := by
  unfold Comment.parse_inline at h ⊢
  rcases cursor_manager_cases r ctx Comment.parse_inline_body with
    ⟨v, r', c', hbody, heq⟩ | ⟨r', c', hbody, heq⟩ | ⟨r', c', hbody, heq⟩ <;>
    rw [heq] at h ⊢
  · simp only
    unfold Comment.parse_inline_body at hbody
    revert hbody
    rcases h1 : r.read SINGLE_LINE_COMMENT_TOKEN with ⟨b, r1⟩
    cases b with
    | false => intro hbody; simp at hbody
    | true =>
      intro hbody
      have hlt1 : r1.remaining.length < r.remaining.length := by
        have hb : (r.read SINGLE_LINE_COMMENT_TOKEN).1 = true := by rw [h1]
        have := Reader.read_true_progress hb (by decide)
        rw [h1] at this
        exact this
      have hr' : r' = (r1.read_until ['\n'] true).2 := by
        have := congrArg (fun t => t.2.1) hbody
        simpa using this.symm
      have hle := (Steps.read_until r1 ['\n'] true).remaining_le
      rw [hr']
      omega
  · simp at h
  · simp at h

/-! ### Grammar productions: whitespace
(src/parser/src/parsers/commons/whitespaces.rs) -/

/-- Whitespace characters, following the UCD specification. -/
def WHITESPACE_CHARS : List (Char × Char) :=
  [('\u0009', '\u0009'), (' ', ' '), (' ', ' '),
   (' ', ' '), (' ', ' '), (' ', ' '),
   (' ', ' '), ('　', '　')]

/-- Line-breaking whitespace characters, following the UCD specification. -/
def MULTILINE_WHITESPACE_CHARS : List (Char × Char) :=
  [('\u000A', '\u000D'), ('\u0085', '\u0085'), (' ', ' ')]

/-- An element of a whitespace composite. -/
inductive WhitespaceElement where
  | whitespace (span : Span)
  | comment (c : Comment)
deriving DecidableEq, Repr

/-- A whitespace composite: raw whitespace runs interleaved with comments. -/
structure Whitespace where
  span : Span
  is_multiline : Bool
  elements : List WhitespaceElement
deriving DecidableEq, Repr

/-- The loop of `Whitespace::parse_inline`: whitespace runs and multiline
comments, until neither applies; a comment `Error` aborts. -/
def Whitespace.parse_inline_loop (r : Reader) (ctx : ParserContext)
    (is_m : Bool) (elements : List WhitespaceElement) :
    Except ParserResultError (Bool × List WhitespaceElement) × Reader × ParserContext :=
  let pre_cursor := r.save_cursor
  match hw : r.read_many_of WHITESPACE_CHARS with
  | (some w, r1) =>
    Whitespace.parse_inline_loop r1 ctx is_m
      (elements ++ [WhitespaceElement.whitespace (r1.substring_to_current pre_cursor)])
  | (none, r1) =>
    match hc : Comment.parse_multiline r1 ctx with
    | (Except.ok comment, r2, c2) =>
      Whitespace.parse_inline_loop r2 c2 (is_m || comment.is_multiline)
        (elements ++ [WhitespaceElement.comment comment])
    | (Except.error ParserResultError.NotFound, r2, c2) =>
      (Except.ok (is_m, elements), r2, c2)
    | (Except.error ParserResultError.Error, r2, c2) =>
      (Except.error ParserResultError.Error, r2, c2)
termination_by r.remaining.length
decreasing_by
  · have h1 : (r.read_many_of WHITESPACE_CHARS).1 = some w := by rw [hw]
    have := Reader.read_many_of_some_progress h1
    rw [hw] at this
    exact this
  · have hnone : (r.read_many_of WHITESPACE_CHARS).1 = none := by rw [hw]
    have hr1 : r1 = r := by
      have := Reader.read_many_of_none hnone
      rw [hw] at this
      exact this
    have hok : (Comment.parse_multiline r1 ctx).1 = Except.ok comment := by rw [hc]
    have := Comment.parse_multiline_ok_progress hok
    rw [hc] at this
    rw [hr1] at this
    exact this

/-- The closure body of `Whitespace::parse_inline`. -/
def Whitespace.parse_inline_body (r0 : Reader) (init : Cursor)
    (ctx0 : ParserContext) : ParserOutcome Whitespace :=
  match Whitespace.parse_inline_loop r0 ctx0 false [] with
  | (Except.error e, r1, c1) => (Except.error e, r1, c1)
  | (Except.ok (is_m, elements), r1, c1) =>
    if elements.isEmpty then (Except.error ParserResultError.NotFound, r1, c1)
    else
      (Except.ok
        { span := r1.substring_to_current init
          is_multiline := is_m
          elements := elements }, r1, c1)

/-- `Whitespace::parse_inline`. -/
def Whitespace.parse_inline (r : Reader) (ctx : ParserContext) :
    ParserOutcome Whitespace :=
  cursor_manager r ctx Whitespace.parse_inline_body

/-- The inner loop of `Whitespace::parse_multiline`: maximal interleaving of
plain and line-breaking whitespace runs, recording whether any was read and
whether a line break occurred. -/
def Whitespace.multiline_ws_run (r : Reader) (any_ws : Bool) (is_m : Bool) :
    Bool × Bool × Reader :=
  match hw : r.read_many_of WHITESPACE_CHARS with
  | (some w, r1) => Whitespace.multiline_ws_run r1 true is_m
  | (none, r1) =>
    match hm : r1.read_many_of MULTILINE_WHITESPACE_CHARS with
    | (some m, r2) => Whitespace.multiline_ws_run r2 true true
    | (none, r2) => (any_ws, is_m, r2)
termination_by r.remaining.length
decreasing_by
  · have h1 : (r.read_many_of WHITESPACE_CHARS).1 = some w := by rw [hw]
    have := Reader.read_many_of_some_progress h1
    rw [hw] at this
    exact this
  · have hnone : (r.read_many_of WHITESPACE_CHARS).1 = none := by rw [hw]
    have hr1 : r1 = r := by
      have := Reader.read_many_of_none hnone
      rw [hw] at this
      exact this
    have h2 : (r1.read_many_of MULTILINE_WHITESPACE_CHARS).1 = some m := by rw [hm]
    have := Reader.read_many_of_some_progress h2
    rw [hm] at this
    rw [hr1] at this
    exact this

theorem Whitespace.multiline_ws_run_steps (r : Reader) (any_ws is_m : Bool) :
    Steps r (Whitespace.multiline_ws_run r any_ws is_m).2.2 := by
  induction r, any_ws, is_m using Whitespace.multiline_ws_run.induct with
  | case1 r any_ws is_m w r1 hw ih =>
    rw [Whitespace.multiline_ws_run.eq_def, hw]
    have hs : Steps r r1 := by
      have := Steps.read_many_of r WHITESPACE_CHARS
      rw [hw] at this
      exact this
    exact hs.trans ih
  | case2 r any_ws is_m r1 hw m r2 hm ih =>
    rw [Whitespace.multiline_ws_run.eq_def, hw]
    simp only
    rw [hm]
    have hs1 : Steps r r1 := by
      have := Steps.read_many_of r WHITESPACE_CHARS
      rw [hw] at this
      exact this
    have hs2 : Steps r1 r2 := by
      have := Steps.read_many_of r1 MULTILINE_WHITESPACE_CHARS
      rw [hm] at this
      exact this
    exact (hs1.trans hs2).trans ih
  | case3 r any_ws is_m r1 hw r2 hm =>
    rw [Whitespace.multiline_ws_run.eq_def, hw]
    simp only
    rw [hm]
    have hs1 : Steps r r1 := by
      have := Steps.read_many_of r WHITESPACE_CHARS
      rw [hw] at this
      exact this
    have hs2 : Steps r1 r2 := by
      have := Steps.read_many_of r1 MULTILINE_WHITESPACE_CHARS
      rw [hm] at this
      exact this
    exact hs1.trans hs2

/-- The outer loop of `Whitespace::parse_multiline`: a whitespace run (pushed
when nonempty), then an inline or a multiline comment continues the loop;
comment errors abort; otherwise the loop ends. -/
def Whitespace.parse_multiline_loop (r : Reader) (ctx : ParserContext)
    (is_m : Bool) (elements : List WhitespaceElement) :
    Except ParserResultError (Bool × List WhitespaceElement) × Reader × ParserContext :=
  let pre_cursor := r.save_cursor
  match hrun : Whitespace.multiline_ws_run r false is_m with
  | (any_ws, is_m1, r1) =>
    let elements1 :=
      if any_ws then
        elements ++ [WhitespaceElement.whitespace (r1.substring_to_current pre_cursor)]
      else elements
    match hc : Comment.parse_inline r1 ctx with
    | (Except.ok comment, r2, c2) =>
      Whitespace.parse_multiline_loop r2 c2 is_m1
        (elements1 ++ [WhitespaceElement.comment comment])
    | (Except.error ParserResultError.Error, r2, c2) =>
      (Except.error ParserResultError.Error, r2, c2)
    | (Except.error ParserResultError.NotFound, r2, c2) =>
      match hc2 : Comment.parse_multiline r2 c2 with
      | (Except.ok comment, r3, c3) =>
        Whitespace.parse_multiline_loop r3 c3 (is_m1 || comment.is_multiline)
          (elements1 ++ [WhitespaceElement.comment comment])
      | (Except.error ParserResultError.Error, r3, c3) =>
        (Except.error ParserResultError.Error, r3, c3)
      | (Except.error ParserResultError.NotFound, r3, c3) =>
        (Except.ok (is_m1, elements1), r3, c3)
termination_by r.remaining.length
decreasing_by
  · have hr1 : r1.remaining.length ≤ r.remaining.length := by
      have := (Whitespace.multiline_ws_run_steps r false is_m).remaining_le
      rw [hrun] at this
      exact this
    have hok : (Comment.parse_inline r1 ctx).1 = Except.ok comment := by rw [hc]
    have hp := Comment.parse_inline_ok_progress hok
    rw [hc] at hp
    have hp2 : r2.remaining.length < r1.remaining.length := by simpa using hp
    omega
  · have hr1 : r1.remaining.length ≤ r.remaining.length := by
      have := (Whitespace.multiline_ws_run_steps r false is_m).remaining_le
      rw [hrun] at this
      exact this
    have hnf : (Comment.parse_inline r1 ctx).1 = Except.error ParserResultError.NotFound := by
      rw [hc]
    have hr2 : r2.remaining.length ≤ r1.remaining.length := by
      have := (Comment.parse_inline_steps_comment r1 ctx).remaining_le
      rw [hc] at this
      exact this
    have hok : (Comment.parse_multiline r2 c2).1 = Except.ok comment := by rw [hc2]
    have hp := Comment.parse_multiline_ok_progress hok
    rw [hc2] at hp
    have hp2 : r3.remaining.length < r2.remaining.length := by simpa using hp
    omega

/-- The closure body of `Whitespace::parse_multiline`. -/
def Whitespace.parse_multiline_body (r0 : Reader) (init : Cursor)
    (ctx0 : ParserContext) : ParserOutcome Whitespace :=
  match Whitespace.parse_multiline_loop r0 ctx0 false [] with
  | (Except.error e, r1, c1) => (Except.error e, r1, c1)
  | (Except.ok (is_m, elements), r1, c1) =>
    if elements.isEmpty then (Except.error ParserResultError.NotFound, r1, c1)
    else
      (Except.ok
        { span := r1.substring_to_current init
          is_multiline := is_m
          elements := elements }, r1, c1)

/-- `Whitespace::parse_multiline`. -/
def Whitespace.parse_multiline (r : Reader) (ctx : ParserContext) :
    ParserOutcome Whitespace :=
  cursor_manager r ctx Whitespace.parse_multiline_body

/-- `Whitespace::parse_multiline_or_default`: fall back to an empty whitespace
node at the reader's current position if parsing fails (either way). -/
def Whitespace.parse_multiline_or_default (r : Reader) (ctx : ParserContext) :
    Whitespace × Reader × ParserContext :=
  match Whitespace.parse_multiline r ctx with
  | (Except.ok w, r1, c1) => (w, r1, c1)
  | (Except.error _, r1, c1) =>
    ({ span := r1.substring_to_current r1.save_cursor
       is_multiline := false
       elements := [] }, r1, c1)

theorem Whitespace.parse_inline_loop_steps (r : Reader) (ctx : ParserContext)
    (is_m : Bool) (elements : List WhitespaceElement) :
    Steps r (Whitespace.parse_inline_loop r ctx is_m elements).2.1 := by
  induction r, ctx, is_m, elements using Whitespace.parse_inline_loop.induct with
  | case1 r ctx is_m elements pre w r1 hw ih =>
    rw [Whitespace.parse_inline_loop.eq_def]
    simp only
    rw [hw]
    have hs1 : Steps r r1 := by
      have := Steps.read_many_of r WHITESPACE_CHARS
      rw [hw] at this
      exact this
    exact hs1.trans ih
  | case2 r ctx is_m elements r1 hw comment r2 c2 hc ih =>
    rw [Whitespace.parse_inline_loop.eq_def]
    simp only
    rw [hw]
    simp only
    rw [hc]
    have hs1 : Steps r r1 := by
      have := Steps.read_many_of r WHITESPACE_CHARS
      rw [hw] at this
      exact this
    have hs2 : Steps r1 r2 := by
      have := Comment.parse_multiline_steps_comment r1 ctx
      rw [hc] at this
      exact this
    exact (hs1.trans hs2).trans ih
  | case3 r ctx is_m elements r1 hw r2 c2 hc =>
    rw [Whitespace.parse_inline_loop.eq_def]
    simp only
    rw [hw]
    simp only
    rw [hc]
    have hs1 : Steps r r1 := by
      have := Steps.read_many_of r WHITESPACE_CHARS
      rw [hw] at this
      exact this
    have hs2 : Steps r1 r2 := by
      have := Comment.parse_multiline_steps_comment r1 ctx
      rw [hc] at this
      exact this
    exact hs1.trans hs2
  | case4 r ctx is_m elements r1 hw r2 c2 hc =>
    rw [Whitespace.parse_inline_loop.eq_def]
    simp only
    rw [hw]
    simp only
    rw [hc]
    have hs1 : Steps r r1 := by
      have := Steps.read_many_of r WHITESPACE_CHARS
      rw [hw] at this
      exact this
    have hs2 : Steps r1 r2 := by
      have := Comment.parse_multiline_steps_comment r1 ctx
      rw [hc] at this
      exact this
    exact hs1.trans hs2

theorem Whitespace.parse_inline_steps_ws (r : Reader) (ctx : ParserContext) :
    Steps r (Whitespace.parse_inline r ctx).2.1 := by
  unfold Whitespace.parse_inline
  apply cursor_manager_steps
  unfold Whitespace.parse_inline_body
  rcases h1 : Whitespace.parse_inline_loop r ctx false [] with ⟨res, r1, c1⟩
  have hs : Steps r r1 := by
    have := Whitespace.parse_inline_loop_steps r ctx false []
    rw [h1] at this
    exact this
  cases res with
  | error e => exact hs
  | ok v =>
    rcases v with ⟨is_m, elements⟩
    by_cases he : elements.isEmpty
    · simp only [he, if_pos]
      exact hs
    · simp only [if_neg he]
      exact hs

theorem Whitespace.parse_multiline_loop_steps (r : Reader) (ctx : ParserContext)
    (is_m : Bool) (elements : List WhitespaceElement) :
    Steps r (Whitespace.parse_multiline_loop r ctx is_m elements).2.1 := by
  induction r, ctx, is_m, elements using Whitespace.parse_multiline_loop.induct with
  | case1 r ctx is_m elements pre any_ws is_m1 r1 hrun elems1 comment r3 c3 hc ih =>
    rw [Whitespace.parse_multiline_loop.eq_def]
    simp only
    rw [hrun]
    simp only
    rw [hc]
    have hs1 : Steps r r1 := by
      have := Whitespace.multiline_ws_run_steps r false is_m
      rw [hrun] at this
      exact this
    have hs2 : Steps r1 r3 := by
      have := Comment.parse_inline_steps_comment r1 ctx
      rw [hc] at this
      exact this
    exact (hs1.trans hs2).trans ih
  | case2 r ctx is_m elements any_ws is_m1 r1 hrun r3 c3 hc =>
    rw [Whitespace.parse_multiline_loop.eq_def]
    simp only
    rw [hrun]
    simp only
    rw [hc]
    have hs1 : Steps r r1 := by
      have := Whitespace.multiline_ws_run_steps r false is_m
      rw [hrun] at this
      exact this
    have hs2 : Steps r1 r3 := by
      have := Comment.parse_inline_steps_comment r1 ctx
      rw [hc] at this
      exact this
    exact hs1.trans hs2
  | case3 r ctx is_m elements pre any_ws is_m1 r1 hrun elems1 r3 c3 hc comment r4 c4 hc2 ih =>
    rw [Whitespace.parse_multiline_loop.eq_def]
    simp only
    rw [hrun]
    simp only
    rw [hc]
    simp only
    rw [hc2]
    have hs1 : Steps r r1 := by
      have := Whitespace.multiline_ws_run_steps r false is_m
      rw [hrun] at this
      exact this
    have hs2 : Steps r1 r3 := by
      have := Comment.parse_inline_steps_comment r1 ctx
      rw [hc] at this
      exact this
    have hs3 : Steps r3 r4 := by
      have := Comment.parse_multiline_steps_comment r3 c3
      rw [hc2] at this
      exact this
    exact ((hs1.trans hs2).trans hs3).trans ih
  | case4 r ctx is_m elements any_ws is_m1 r1 hrun r3 c3 hc r4 c4 hc2 =>
    rw [Whitespace.parse_multiline_loop.eq_def]
    simp only
    rw [hrun]
    simp only
    rw [hc]
    simp only
    rw [hc2]
    have hs1 : Steps r r1 := by
      have := Whitespace.multiline_ws_run_steps r false is_m
      rw [hrun] at this
      exact this
    have hs2 : Steps r1 r3 := by
      have := Comment.parse_inline_steps_comment r1 ctx
      rw [hc] at this
      exact this
    have hs3 : Steps r3 r4 := by
      have := Comment.parse_multiline_steps_comment r3 c3
      rw [hc2] at this
      exact this
    exact (hs1.trans hs2).trans hs3
  | case5 r ctx is_m elements any_ws is_m1 r1 hrun r3 c3 hc r4 c4 hc2 =>
    rw [Whitespace.parse_multiline_loop.eq_def]
    simp only
    rw [hrun]
    simp only
    rw [hc]
    simp only
    rw [hc2]
    have hs1 : Steps r r1 := by
      have := Whitespace.multiline_ws_run_steps r false is_m
      rw [hrun] at this
      exact this
    have hs2 : Steps r1 r3 := by
      have := Comment.parse_inline_steps_comment r1 ctx
      rw [hc] at this
      exact this
    have hs3 : Steps r3 r4 := by
      have := Comment.parse_multiline_steps_comment r3 c3
      rw [hc2] at this
      exact this
    exact (hs1.trans hs2).trans hs3

theorem Whitespace.parse_multiline_steps_ws (r : Reader) (ctx : ParserContext) :
    Steps r (Whitespace.parse_multiline r ctx).2.1 := by
  unfold Whitespace.parse_multiline
  apply cursor_manager_steps
  unfold Whitespace.parse_multiline_body
  rcases h1 : Whitespace.parse_multiline_loop r ctx false [] with ⟨res, r1, c1⟩
  have hs : Steps r r1 := by
    have := Whitespace.parse_multiline_loop_steps r ctx false []
    rw [h1] at this
    exact this
  cases res with
  | error e => exact hs
  | ok v =>
    rcases v with ⟨is_m, elements⟩
    by_cases he : elements.isEmpty
    · simp only [he, if_pos]
      exact hs
    · simp only [if_neg he]
      exact hs

theorem Whitespace.parse_multiline_or_default_steps (r : Reader) (ctx : ParserContext) :
    Steps r (Whitespace.parse_multiline_or_default r ctx).2.1 := by
  unfold Whitespace.parse_multiline_or_default
  rcases h1 : Whitespace.parse_multiline r ctx with ⟨res, r1, c1⟩
  have hs : Steps r r1 := by
    have := Whitespace.parse_multiline_steps_ws r ctx
    rw [h1] at this
    exact this
  cases res with
  | ok w => exact hs
  | error e => exact hs

/-! ### Grammar productions: numbers
(src/parser/src/parsers/expressions/literals/{numbers,integer}.rs; both files
declare identical prefix strings, digit classes and separator range) -/

/-- `BINARY_PREFIX`. -/
def BINARY_PFX : List Char := ['0', 'b']

/-- `OCTAL_PREFIX`. -/
def OCTAL_PFX : List Char := ['0', 'o']

/-- `DECIMAL_PREFIX`. -/
def DECIMAL_PFX : List Char := ['0', 'd']

/-- `HEXADECIMAL_PREFIX`. -/
def HEXADECIMAL_PFX : List Char := ['0', 'x']

def BINARY_DIGIT_CHARS : List (Char × Char) := [('0', '1')]

def OCTAL_DIGIT_CHARS : List (Char × Char) := [('0', '7')]

def DECIMAL_DIGIT_CHARS : List (Char × Char) := [('0', '9')]

def HEXADECIMAL_DIGIT_CHARS : List (Char × Char) :=
  [('0', '9'), ('A', 'F'), ('a', 'f')]

def SEPARATOR_RANGE : List (Char × Char) := [('_', '_')]

/-- The digit-grouping loop shared by `Number::parse_number` and
`IntegerNumber::parse_number`: save the cursor, read a separator run, then
require a digit run; a separator run not followed by digits rolls the reader
back to just before it and exits. -/
def number_grouping_loop (digit_interval : List (Char × Char)) (r : Reader) :
    Reader :=
  let init_loop_cursor := r.save_cursor
  match hs : r.read_many_of SEPARATOR_RANGE with
  | (none, r1) => r1
  | (some s, r1) =>
    match hd : r1.read_many_of digit_interval with
    | (none, r2) => r2.restore init_loop_cursor
    | (some d, r2) => number_grouping_loop digit_interval r2
termination_by r.remaining.length
decreasing_by
  have h1 : (r.read_many_of SEPARATOR_RANGE).1 = some s := by rw [hs]
  have hp1 := Reader.read_many_of_some_progress h1
  rw [hs] at hp1
  have hp1' : r1.remaining.length < r.remaining.length := by simpa using hp1
  have h2 : (r1.read_many_of digit_interval).1 = some d := by rw [hd]
  have hp2 := Reader.read_many_of_some_progress h2
  rw [hd] at hp2
  have hp2' : r2.remaining.length < r1.remaining.length := by simpa using hp2
  omega

theorem number_grouping_loop_steps (digit_interval : List (Char × Char))
    (r : Reader) : Steps r (number_grouping_loop digit_interval r) := by
  refine number_grouping_loop.induct digit_interval
    (fun r => Steps r (number_grouping_loop digit_interval r)) ?case1 ?case2 ?case3 r
  case case1 =>
    intro r r1 hs
    rw [number_grouping_loop.eq_def]
    simp only
    rw [hs]
    have := Steps.read_many_of r SEPARATOR_RANGE
    rw [hs] at this
    exact this
  case case2 =>
    intro r s r1 hs r2 hd
    rw [number_grouping_loop.eq_def]
    simp only
    rw [hs]
    simp only
    rw [hd]
    simp only
    have hs1 : Steps r r1 := by
      have := Steps.read_many_of r SEPARATOR_RANGE
      rw [hs] at this
      exact this
    have hs2 : Steps r1 r2 := by
      have := Steps.read_many_of r1 digit_interval
      rw [hd] at this
      exact this
    exact Steps.restore_to (hs1.trans hs2)
  case case3 =>
    intro r s r1 hs d r2 hd ih
    rw [number_grouping_loop.eq_def]
    simp only
    rw [hs]
    simp only
    rw [hd]
    have hs1 : Steps r r1 := by
      have := Steps.read_many_of r SEPARATOR_RANGE
      rw [hs] at this
      exact this
    have hs2 : Steps r1 r2 := by
      have := Steps.read_many_of r1 digit_interval
      rw [hd] at this
      exact this
    exact (hs1.trans hs2).trans ih

/-- Numeric value of a digit character (as `BigInt::parse_bytes` digit
interpretation). -/
def digitVal (c : Char) : Nat :=
  if '0' ≤ c ∧ c ≤ '9' then c.toNat - '0'.toNat
  else if 'a' ≤ c ∧ c ≤ 'z' then c.toNat - 'a'.toNat + 10
  else if 'A' ≤ c ∧ c ≤ 'Z' then c.toNat - 'A'.toNat + 10
  else 0

/-- Radix interpretation of a digit string (the integer value that
`BigInt::parse_bytes(..., radix)` produces; number literals here are natural
numbers, so the `BigRational` wrapper adds nothing). -/
def parseDigits (radix : Nat) (l : List Char) : Nat :=
  l.foldl (fun acc c => acc * radix + digitVal c) 0

/-- A number in the Mosfet language
(src/parser/src/parsers/expressions/literals/numbers.rs). -/
structure Number where
  span : Span
  number : Nat
deriving DecidableEq, Repr

/-- The closure body of `Number::parse_number`: a digit run, the grouping
loop, then the value of the separator-stripped digits. -/
def Number.parse_number_body (interval : List (Char × Char)) (radix : Nat)
    (r0 : Reader) (init : Cursor) (ctx0 : ParserContext) : ParserOutcome Number :=
  match r0.read_many_of interval with
  | (none, r1) => (Except.error ParserResultError.NotFound, r1, ctx0)
  | (some _, r1) =>
    let r2 := number_grouping_loop interval r1
    let span := r2.substring_to_current init
    (Except.ok
      { span := span
        number := parseDigits radix (span.content.filter (fun c => c ≠ '_')) },
      r2, ctx0)

/-- `Number::parse_number`. -/
def Number.parse_number (r : Reader) (ctx : ParserContext)
    (interval : List (Char × Char)) (radix : Nat) : ParserOutcome Number :=
  cursor_manager r ctx (Number.parse_number_body interval radix)

/-- `Number::parse_binary`. -/
def Number.parse_binary (r : Reader) (ctx : ParserContext) : ParserOutcome Number :=
  Number.parse_number r ctx BINARY_DIGIT_CHARS 2

/-- `Number::parse_octal`. -/
def Number.parse_octal (r : Reader) (ctx : ParserContext) : ParserOutcome Number :=
  Number.parse_number r ctx OCTAL_DIGIT_CHARS 8

/-- `Number::parse_decimal`. -/
def Number.parse_decimal (r : Reader) (ctx : ParserContext) : ParserOutcome Number :=
  Number.parse_number r ctx DECIMAL_DIGIT_CHARS 10

/-- `Number::parse_hexadecimal`. -/
def Number.parse_hexadecimal (r : Reader) (ctx : ParserContext) :
    ParserOutcome Number :=
  Number.parse_number r ctx HEXADECIMAL_DIGIT_CHARS 16

/-- The closure body of `Number::parse`: try each radix prefix in order,
falling back to decimal (whose prefix is optional and whose read result is
discarded); on success re-span the node from the rule entry. -/
def Number.parse_body (r0 : Reader) (init : Cursor) (ctx0 : ParserContext) :
    ParserOutcome Number :=
  match r0.read BINARY_PFX with
  | (true, r1) =>
    (match Number.parse_binary r1 ctx0 with
      | (Except.ok n, r2, c2) =>
        (Except.ok { n with span := r2.substring_to_current init }, r2, c2)
      | (Except.error e, r2, c2) => (Except.error e, r2, c2))
  | (false, r1) =>
    match r1.read OCTAL_PFX with
    | (true, r2) =>
      (match Number.parse_octal r2 ctx0 with
        | (Except.ok n, r3, c3) =>
          (Except.ok { n with span := r3.substring_to_current init }, r3, c3)
        | (Except.error e, r3, c3) => (Except.error e, r3, c3))
    | (false, r2) =>
      match r2.read HEXADECIMAL_PFX with
      | (true, r3) =>
        (match Number.parse_hexadecimal r3 ctx0 with
          | (Except.ok n, r4, c4) =>
            (Except.ok { n with span := r4.substring_to_current init }, r4, c4)
          | (Except.error e, r4, c4) => (Except.error e, r4, c4))
      | (false, r3) =>
        let r4 := (r3.read DECIMAL_PFX).2
        match Number.parse_decimal r4 ctx0 with
        | (Except.ok n, r5, c5) =>
          (Except.ok { n with span := r5.substring_to_current init }, r5, c5)
        | (Except.error e, r5, c5) => (Except.error e, r5, c5)

/-- `Number::parse`. -/
def Number.parse (r : Reader) (ctx : ParserContext) : ParserOutcome Number :=
  cursor_manager r ctx Number.parse_body

/-- The radix a number literal is written in
(src/parser/src/parsers/expressions/literals/integer.rs). -/
inductive Radix where
  | Binary
  | Octal
  | Decimal
  | Hexadecimal
deriving DecidableEq, Repr

/-- `Radix::prefix_str`. -/
def Radix.pfxStr : Radix → List Char
  | Radix.Binary => BINARY_PFX
  | Radix.Octal => OCTAL_PFX
  | Radix.Decimal => DECIMAL_PFX
  | Radix.Hexadecimal => HEXADECIMAL_PFX

/-- A natural (unsigned) number literal
(src/parser/src/parsers/expressions/literals/integer.rs). The `has_prefix`
field is named `hasPfx` here. -/
structure IntegerNumber where
  span : Span
  hasPfx : Bool
  radix : Radix
  digits : Span
deriving DecidableEq, Repr

/-- `IntegerNumber::prefix_str`. -/
def IntegerNumber.pfxStr (n : IntegerNumber) : List Char :=
  if n.hasPfx then n.radix.pfxStr else []

/-- `IntegerNumber::check_leading_zeroes`: record a `NumberWithLeadingZeroes`
warning unless suppressed, unless there are no leading zeroes, or the literal
is exactly `0`. The snippet-highlight arithmetic of the source only shapes the
rendered log and is omitted. -/
def IntegerNumber.check_leading_zeroes (ctx : ParserContext) (digits : Span)
    (pfx : List Char) : ParserContext :=
  if ctx.ignore.number_leading_zeroes then ctx
  else
    let content := digits.content
    let new_content := content.dropWhile (fun c => c = '0')
    if new_content.length = content.length then ctx
    else
      let number_of_zeroes := content.length - new_content.length
      if new_content.length = 0 then
        if number_of_zeroes = 1 then
          ctx
        else
          ctx.add_message (Message.warning ParserWarning.NumberWithLeadingZeroes)
      else ctx.add_message (Message.warning ParserWarning.NumberWithLeadingZeroes)

/-- The closure body of `IntegerNumber::parse_number`: a digit run (with the
after-prefix hard errors when it is missing), the grouping loop, the digits
span (doubling as the node's span until `parse` re-spans it) and the
leading-zeroes check. -/
def IntegerNumber.parse_number_body (digit_interval : List (Char × Char))
    (radix : Radix) (hasPfx : Bool) (r0 : Reader) (init : Cursor)
    (ctx0 : ParserContext) : ParserOutcome IntegerNumber :=
  match r0.read_many_of digit_interval with
  | (none, r1) =>
    if hasPfx then
      match r1.read_one_of SEPARATOR_RANGE with
      | (some _, r2) =>
        (Except.error ParserResultError.Error, r2,
          ctx0.add_message (Message.error ParserError.NumberWithSeparatorAfterPrefix))
      | (none, r2) =>
        (Except.error ParserResultError.Error, r2,
          ctx0.add_message (Message.error ParserError.NumberWithoutDigitsAfterPrefix))
    else (Except.error ParserResultError.NotFound, r1, ctx0)
  | (some _, r1) =>
    let r2 := number_grouping_loop digit_interval r1
    let digits := r2.substring_to_current init
    let result : IntegerNumber :=
      { hasPfx := hasPfx, radix := radix, span := digits, digits := digits }
    let ctx1 := IntegerNumber.check_leading_zeroes ctx0 digits result.pfxStr
    (Except.ok result, r2, ctx1)

/-- `IntegerNumber::parse_number`. -/
def IntegerNumber.parse_number (r : Reader) (ctx : ParserContext)
    (digit_interval : List (Char × Char)) (radix : Radix) (hasPfx : Bool) :
    ParserOutcome IntegerNumber :=
  cursor_manager r ctx (IntegerNumber.parse_number_body digit_interval radix hasPfx)

/-- The closure body of `IntegerNumber::parse`: try each radix prefix in
order, falling back to decimal whose prefix is optional; on success re-span
the node from the rule entry and record whether a prefix was consumed. -/
def IntegerNumber.parse_body (r0 : Reader) (init : Cursor)
    (ctx0 : ParserContext) : ParserOutcome IntegerNumber :=
  match r0.read BINARY_PFX with
  | (true, r1) =>
    (match IntegerNumber.parse_number r1 ctx0 BINARY_DIGIT_CHARS Radix.Binary true with
      | (Except.ok n, r2, c2) =>
        (Except.ok { n with span := r2.substring_to_current init, hasPfx := true }, r2, c2)
      | (Except.error e, r2, c2) => (Except.error e, r2, c2))
  | (false, r1) =>
    match r1.read OCTAL_PFX with
    | (true, r2) =>
      (match IntegerNumber.parse_number r2 ctx0 OCTAL_DIGIT_CHARS Radix.Octal true with
        | (Except.ok n, r3, c3) =>
          (Except.ok { n with span := r3.substring_to_current init, hasPfx := true }, r3, c3)
        | (Except.error e, r3, c3) => (Except.error e, r3, c3))
    | (false, r2) =>
      match r2.read HEXADECIMAL_PFX with
      | (true, r3) =>
        (match IntegerNumber.parse_number r3 ctx0 HEXADECIMAL_DIGIT_CHARS
            Radix.Hexadecimal true with
          | (Except.ok n, r4, c4) =>
            (Except.ok { n with span := r4.substring_to_current init, hasPfx := true },
              r4, c4)
          | (Except.error e, r4, c4) => (Except.error e, r4, c4))
      | (false, r3) =>
        match r3.read DECIMAL_PFX with
        | (hasPfx, r4) =>
          match IntegerNumber.parse_number r4 ctx0 DECIMAL_DIGIT_CHARS
              Radix.Decimal hasPfx with
          | (Except.ok n, r5, c5) =>
            (Except.ok { n with span := r5.substring_to_current init, hasPfx := hasPfx },
              r5, c5)
          | (Except.error e, r5, c5) => (Except.error e, r5, c5)

/-- `IntegerNumber::parse`. -/
def IntegerNumber.parse (r : Reader) (ctx : ParserContext) :
    ParserOutcome IntegerNumber :=
  cursor_manager r ctx IntegerNumber.parse_body

theorem Number.parse_number_steps_number (r : Reader) (ctx : ParserContext)
    (interval : List (Char × Char)) (radix : Nat) :
    Steps r (Number.parse_number r ctx interval radix).2.1 := by
  unfold Number.parse_number
  apply cursor_manager_steps
  unfold Number.parse_number_body
  rcases h1 : r.read_many_of interval with ⟨o, r1⟩
  have hs1 : Steps r r1 := by
    have := Steps.read_many_of r interval
    rw [h1] at this
    exact this
  cases o with
  | none => exact hs1
  | some run => exact hs1.trans (number_grouping_loop_steps interval r1)

theorem Number.parse_steps_number (r : Reader) (ctx : ParserContext) :
    Steps r (Number.parse r ctx).2.1 := by
  unfold Number.parse
  apply cursor_manager_steps
  unfold Number.parse_body
  rcases h1 : r.read BINARY_PFX with ⟨b1, r1⟩
  have hs1 : Steps r r1 := by
    have := Steps.read r BINARY_PFX
    rw [h1] at this
    exact this
  cases b1 with
  | true =>
    simp only
    rcases h2 : Number.parse_binary r1 ctx with ⟨res, r2, c2⟩
    have hs2 : Steps r1 r2 := by
      have := Number.parse_number_steps_number r1 ctx BINARY_DIGIT_CHARS 2
      rw [show Number.parse_binary r1 ctx
        = Number.parse_number r1 ctx BINARY_DIGIT_CHARS 2 from rfl] at h2
      rw [h2] at this
      exact this
    cases res with
    | ok n => exact hs1.trans hs2
    | error e => exact hs1.trans hs2
  | false =>
    simp only
    rcases h2 : r1.read OCTAL_PFX with ⟨b2, r2⟩
    have hs2 : Steps r1 r2 := by
      have := Steps.read r1 OCTAL_PFX
      rw [h2] at this
      exact this
    cases b2 with
    | true =>
      simp only
      rcases h3 : Number.parse_octal r2 ctx with ⟨res, r3, c3⟩
      have hs3 : Steps r2 r3 := by
        have := Number.parse_number_steps_number r2 ctx OCTAL_DIGIT_CHARS 8
        rw [show Number.parse_octal r2 ctx
          = Number.parse_number r2 ctx OCTAL_DIGIT_CHARS 8 from rfl] at h3
        rw [h3] at this
        exact this
      cases res with
      | ok n => exact (hs1.trans hs2).trans hs3
      | error e => exact (hs1.trans hs2).trans hs3
    | false =>
      simp only
      rcases h3 : r2.read HEXADECIMAL_PFX with ⟨b3, r3⟩
      have hs3 : Steps r2 r3 := by
        have := Steps.read r2 HEXADECIMAL_PFX
        rw [h3] at this
        exact this
      cases b3 with
      | true =>
        simp only
        rcases h4 : Number.parse_hexadecimal r3 ctx with ⟨res, r4, c4⟩
        have hs4 : Steps r3 r4 := by
          have := Number.parse_number_steps_number r3 ctx HEXADECIMAL_DIGIT_CHARS 16
          rw [show Number.parse_hexadecimal r3 ctx
            = Number.parse_number r3 ctx HEXADECIMAL_DIGIT_CHARS 16 from rfl] at h4
          rw [h4] at this
          exact this
        cases res with
        | ok n => exact ((hs1.trans hs2).trans hs3).trans hs4
        | error e => exact ((hs1.trans hs2).trans hs3).trans hs4
      | false =>
        simp only
        have hs4 : Steps r3 (r3.read DECIMAL_PFX).2 := Steps.read r3 DECIMAL_PFX
        rcases h5 : Number.parse_decimal (r3.read DECIMAL_PFX).2 ctx with ⟨res, r5, c5⟩
        have hs5 : Steps (r3.read DECIMAL_PFX).2 r5 := by
          have := Number.parse_number_steps_number (r3.read DECIMAL_PFX).2 ctx
            DECIMAL_DIGIT_CHARS 10
          rw [show Number.parse_decimal (r3.read DECIMAL_PFX).2 ctx
            = Number.parse_number (r3.read DECIMAL_PFX).2 ctx DECIMAL_DIGIT_CHARS 10
            from rfl] at h5
          rw [h5] at this
          exact this
        cases res with
        | ok n => exact (((hs1.trans hs2).trans hs3).trans hs4).trans hs5
        | error e => exact (((hs1.trans hs2).trans hs3).trans hs4).trans hs5

theorem IntegerNumber.parse_number_steps_integer (r : Reader) (ctx : ParserContext)
    (digit_interval : List (Char × Char)) (radix : Radix) (hasPfx : Bool) :
    Steps r (IntegerNumber.parse_number r ctx digit_interval radix hasPfx).2.1 := by
  unfold IntegerNumber.parse_number
  apply cursor_manager_steps
  unfold IntegerNumber.parse_number_body
  rcases h1 : r.read_many_of digit_interval with ⟨o, r1⟩
  have hs1 : Steps r r1 := by
    have := Steps.read_many_of r digit_interval
    rw [h1] at this
    exact this
  cases o with
  | some run => exact hs1.trans (number_grouping_loop_steps digit_interval r1)
  | none =>
    cases hasPfx with
    | false => exact hs1
    | true =>
      simp only [if_pos]
      rcases h2 : r1.read_one_of SEPARATOR_RANGE with ⟨o2, r2⟩
      have hs2 : Steps r1 r2 := by
        have := Steps.read_one_of r1 SEPARATOR_RANGE
        rw [h2] at this
        exact this
      cases o2 with
      | some c => exact hs1.trans hs2
      | none => exact hs1.trans hs2

theorem IntegerNumber.parse_steps_integer (r : Reader) (ctx : ParserContext) :
    Steps r (IntegerNumber.parse r ctx).2.1 := by
  unfold IntegerNumber.parse
  apply cursor_manager_steps
  unfold IntegerNumber.parse_body
  rcases h1 : r.read BINARY_PFX with ⟨b1, r1⟩
  have hs1 : Steps r r1 := by
    have := Steps.read r BINARY_PFX
    rw [h1] at this
    exact this
  cases b1 with
  | true =>
    simp only
    rcases h2 : IntegerNumber.parse_number r1 ctx BINARY_DIGIT_CHARS Radix.Binary true
      with ⟨res, r2, c2⟩
    have hs2 : Steps r1 r2 := by
      have := IntegerNumber.parse_number_steps_integer r1 ctx BINARY_DIGIT_CHARS Radix.Binary true
      rw [h2] at this
      exact this
    cases res with
    | ok n => exact hs1.trans hs2
    | error e => exact hs1.trans hs2
  | false =>
    simp only
    rcases h2 : r1.read OCTAL_PFX with ⟨b2, r2⟩
    have hs2 : Steps r1 r2 := by
      have := Steps.read r1 OCTAL_PFX
      rw [h2] at this
      exact this
    cases b2 with
    | true =>
      simp only
      rcases h3 : IntegerNumber.parse_number r2 ctx OCTAL_DIGIT_CHARS Radix.Octal true
        with ⟨res, r3, c3⟩
      have hs3 : Steps r2 r3 := by
        have := IntegerNumber.parse_number_steps_integer r2 ctx OCTAL_DIGIT_CHARS Radix.Octal true
        rw [h3] at this
        exact this
      cases res with
      | ok n => exact (hs1.trans hs2).trans hs3
      | error e => exact (hs1.trans hs2).trans hs3
    | false =>
      simp only
      rcases h3 : r2.read HEXADECIMAL_PFX with ⟨b3, r3⟩
      have hs3 : Steps r2 r3 := by
        have := Steps.read r2 HEXADECIMAL_PFX
        rw [h3] at this
        exact this
      cases b3 with
      | true =>
        simp only
        rcases h4 : IntegerNumber.parse_number r3 ctx HEXADECIMAL_DIGIT_CHARS
            Radix.Hexadecimal true with ⟨res, r4, c4⟩
        have hs4 : Steps r3 r4 := by
          have := IntegerNumber.parse_number_steps_integer r3 ctx HEXADECIMAL_DIGIT_CHARS
            Radix.Hexadecimal true
          rw [h4] at this
          exact this
        cases res with
        | ok n => exact ((hs1.trans hs2).trans hs3).trans hs4
        | error e => exact ((hs1.trans hs2).trans hs3).trans hs4
      | false =>
        simp only
        rcases h4 : r3.read DECIMAL_PFX with ⟨b4, r4⟩
        have hs4 : Steps r3 r4 := by
          have := Steps.read r3 DECIMAL_PFX
          rw [h4] at this
          exact this
        rcases h5 : IntegerNumber.parse_number r4 ctx DECIMAL_DIGIT_CHARS
            Radix.Decimal b4 with ⟨res, r5, c5⟩
        have hs5 : Steps r4 r5 := by
          have := IntegerNumber.parse_number_steps_integer r4 ctx DECIMAL_DIGIT_CHARS
            Radix.Decimal b4
          rw [h5] at this
          exact this
        cases res with
        | ok n => exact (((hs1.trans hs2).trans hs3).trans hs4).trans hs5
        | error e => exact (((hs1.trans hs2).trans hs3).trans hs4).trans hs5

/-! ### Grammar productions: literals, expressions
(src/parser/src/parsers/expressions/literals/mod.rs, expressions/mod.rs) -/

/-- A literal value in the Mosfet language. -/
inductive Literal where
  | Number (n : Number)
deriving DecidableEq, Repr

/-- `Literal::parse`: try `Number`; `NotFound` falls through to the final
`NotFound`, `Error` propagates immediately. -/
def Literal.parse (r : Reader) (ctx : ParserContext) : ParserOutcome Literal :=
  match Number.parse r ctx with
  | (Except.ok node, r1, c1) => (Except.ok (Literal.Number node), r1, c1)
  | (Except.error ParserResultError.NotFound, r1, c1) =>
    (Except.error ParserResultError.NotFound, r1, c1)
  | (Except.error ParserResultError.Error, r1, c1) =>
    (Except.error ParserResultError.Error, r1, c1)

/-- An expression in the Mosfet language. -/
inductive Expression where
  | Literal (l : Literal)
  | VariableAccess (i : Identifier)
deriving DecidableEq, Repr

/-- `Expression::parse`: try `Literal`, then `Identifier` (variable access),
in that order; the first `Ok` wins, the first `Error` propagates immediately,
and `NotFound` results only when both alternatives returned `NotFound`. -/
def Expression.parse (r : Reader) (ctx : ParserContext) : ParserOutcome Expression :=
  match Literal.parse r ctx with
  | (Except.ok node, r1, c1) => (Except.ok (Expression.Literal node), r1, c1)
  | (Except.error ParserResultError.Error, r1, c1) =>
    (Except.error ParserResultError.Error, r1, c1)
  | (Except.error ParserResultError.NotFound, r1, c1) =>
    match Identifier.parse r1 c1 with
    | (Except.ok node, r2, c2) => (Except.ok (Expression.VariableAccess node), r2, c2)
    | (Except.error ParserResultError.Error, r2, c2) =>
      (Except.error ParserResultError.Error, r2, c2)
    | (Except.error ParserResultError.NotFound, r2, c2) =>
      (Except.error ParserResultError.NotFound, r2, c2)

theorem Literal.parse_steps_literal (r : Reader) (ctx : ParserContext) :
    Steps r (Literal.parse r ctx).2.1 := by
  unfold Literal.parse
  rcases h1 : Number.parse r ctx with ⟨res, r1, c1⟩
  have hs : Steps r r1 := by
    have := Number.parse_steps_number r ctx
    rw [h1] at this
    exact this
  cases res with
  | ok n => exact hs
  | error e => cases e <;> exact hs

theorem Expression.parse_steps_expression (r : Reader) (ctx : ParserContext) :
    Steps r (Expression.parse r ctx).2.1 := by
  unfold Expression.parse
  rcases h1 : Literal.parse r ctx with ⟨res, r1, c1⟩
  have hs1 : Steps r r1 := by
    have := Literal.parse_steps_literal r ctx
    rw [h1] at this
    exact this
  cases res with
  | ok n => exact hs1
  | error e =>
    cases e with
    | Error => exact hs1
    | NotFound =>
      simp only
      rcases h2 : Identifier.parse r1 c1 with ⟨res2, r2, c2⟩
      have hs2 : Steps r1 r2 := by
        have := Identifier.parse_steps_identifier r1 c1
        rw [h2] at this
        exact this
      cases res2 with
      | ok i => exact hs1.trans hs2
      | error e2 => cases e2 <;> exact hs1.trans hs2

/-! ### Grammar productions: statements
(src/parser/src/parsers/statements/{variable_declaration,return_statement,mod}.rs) -/

/-- The `let` keyword of variable declarations. -/
def VD_KEYWORD : List Char := ['l', 'e', 't']

/-- The assign operator of variable declarations. -/
def ASSIGN_OPERATOR : List Char := ['=']

/-- The `return` keyword of return statements. -/
def RS_KEYWORD : List Char := ['r', 'e', 't', 'u', 'r', 'n']

/-- A variable declaration with a compulsory expression. -/
structure VariableDeclaration where
  span : Span
  name : Identifier
  expression : Expression
  pre_name_whitespace : Whitespace
  pre_assign_operator_whitespace : Whitespace
  pre_expression_whitespace : Whitespace
deriving DecidableEq, Repr

/-- The closure body of `VariableDeclaration::parse`: the `let` keyword
(otherwise `NotFound`), then name, assign operator and expression, each
preceded by optional multiline whitespace and each mandatory on pain of a
hard error. -/
def VariableDeclaration.parse_body (r0 : Reader) (init : Cursor)
    (ctx0 : ParserContext) : ParserOutcome VariableDeclaration :=
  match Identifier.parse_keyword r0 ctx0 VD_KEYWORD with
  | (false, r1, c1) => (Except.error ParserResultError.NotFound, r1, c1)
  | (true, r1, c1) =>
    match Whitespace.parse_multiline_or_default r1 c1 with
    | (pre_name_whitespace, r2, c2) =>
      match Identifier.parse r2 c2 with
      | (Except.error _, r3, c3) =>
        (Except.error ParserResultError.Error, r3,
          c3.add_message (Message.error ParserError.MissingNameInVariableDeclaration))
      | (Except.ok name, r3, c3) =>
        match Whitespace.parse_multiline_or_default r3 c3 with
        | (pre_assign_operator_whitespace, r4, c4) =>
          match r4.read ASSIGN_OPERATOR with
          | (false, r5) =>
            (Except.error ParserResultError.Error, r5,
              c4.add_message
                (Message.error ParserError.MissingAssignOperatorInVariableDeclaration))
          | (true, r5) =>
            match Whitespace.parse_multiline_or_default r5 c4 with
            | (pre_expression_whitespace, r6, c6) =>
              match Expression.parse r6 c6 with
              | (Except.error _, r7, c7) =>
                (Except.error ParserResultError.Error, r7,
                  c7.add_message
                    (Message.error ParserError.MissingExpressionInVariableDeclaration))
              | (Except.ok expression, r7, c7) =>
                (Except.ok
                  { span := r7.substring_to_current init
                    name := name
                    expression := expression
                    pre_name_whitespace := pre_name_whitespace
                    pre_assign_operator_whitespace := pre_assign_operator_whitespace
                    pre_expression_whitespace := pre_expression_whitespace }, r7, c7)

/-- `VariableDeclaration::parse`. -/
def VariableDeclaration.parse (r : Reader) (ctx : ParserContext) :
    ParserOutcome VariableDeclaration :=
  cursor_manager r ctx VariableDeclaration.parse_body

/-- A return statement with a compulsory expression. -/
structure ReturnStatement where
  span : Span
  expression : Expression
  pre_expression_whitespace : Whitespace
deriving DecidableEq, Repr

/-- The closure body of `ReturnStatement::parse`: the `return` keyword
(otherwise `NotFound`), optional multiline whitespace, then a mandatory
expression. -/
def ReturnStatement.parse_body (r0 : Reader) (init : Cursor)
    (ctx0 : ParserContext) : ParserOutcome ReturnStatement :=
  match Identifier.parse_keyword r0 ctx0 RS_KEYWORD with
  | (false, r1, c1) => (Except.error ParserResultError.NotFound, r1, c1)
  | (true, r1, c1) =>
    match Whitespace.parse_multiline_or_default r1 c1 with
    | (pre_expression_whitespace, r2, c2) =>
      match Expression.parse r2 c2 with
      | (Except.error _, r3, c3) =>
        (Except.error ParserResultError.Error, r3,
          c3.add_message (Message.error ParserError.MissingExpressionInReturnStatement))
      | (Except.ok expression, r3, c3) =>
        (Except.ok
          { span := r3.substring_to_current init
            expression := expression
            pre_expression_whitespace := pre_expression_whitespace }, r3, c3)

/-- `ReturnStatement::parse`. -/
def ReturnStatement.parse (r : Reader) (ctx : ParserContext) :
    ParserOutcome ReturnStatement :=
  cursor_manager r ctx ReturnStatement.parse_body

/-- A statement in the Mosfet language. -/
inductive Statement where
  | VariableDeclaration (v : VariableDeclaration)
  | ReturnStatement (v : ReturnStatement)
deriving DecidableEq, Repr

/-- `Statement::parse`: try `VariableDeclaration`, then `ReturnStatement`, in
that order; the first `Ok` wins, the first `Error` propagates immediately, and
`NotFound` results only when both alternatives returned `NotFound`. -/
def Statement.parse (r : Reader) (ctx : ParserContext) : ParserOutcome Statement :=
  match VariableDeclaration.parse r ctx with
  | (Except.ok node, r1, c1) => (Except.ok (Statement.VariableDeclaration node), r1, c1)
  | (Except.error ParserResultError.Error, r1, c1) =>
    (Except.error ParserResultError.Error, r1, c1)
  | (Except.error ParserResultError.NotFound, r1, c1) =>
    match ReturnStatement.parse r1 c1 with
    | (Except.ok node, r2, c2) => (Except.ok (Statement.ReturnStatement node), r2, c2)
    | (Except.error ParserResultError.Error, r2, c2) =>
      (Except.error ParserResultError.Error, r2, c2)
    | (Except.error ParserResultError.NotFound, r2, c2) =>
      (Except.error ParserResultError.NotFound, r2, c2)

theorem VariableDeclaration.parse_steps_vd (r : Reader) (ctx : ParserContext) :
    Steps r (VariableDeclaration.parse r ctx).2.1 := by
  unfold VariableDeclaration.parse
  apply cursor_manager_steps
  unfold VariableDeclaration.parse_body
  rcases h1 : Identifier.parse_keyword r ctx VD_KEYWORD with ⟨b1, r1, c1⟩
  have hs1 : Steps r r1 := by
    have := Identifier.parse_keyword_steps r ctx VD_KEYWORD
    rw [h1] at this
    exact this
  cases b1 with
  | false => exact hs1
  | true =>
    simp only
    rcases h2 : Whitespace.parse_multiline_or_default r1 c1 with ⟨w1, r2, c2⟩
    have hs2 : Steps r1 r2 := by
      have := Whitespace.parse_multiline_or_default_steps r1 c1
      rw [h2] at this
      exact this
    simp only
    rcases h3 : Identifier.parse r2 c2 with ⟨res3, r3, c3⟩
    have hs3 : Steps r2 r3 := by
      have := Identifier.parse_steps_identifier r2 c2
      rw [h3] at this
      exact this
    cases res3 with
    | error e => exact (hs1.trans hs2).trans hs3
    | ok name =>
      simp only
      rcases h4 : Whitespace.parse_multiline_or_default r3 c3 with ⟨w2, r4, c4⟩
      have hs4 : Steps r3 r4 := by
        have := Whitespace.parse_multiline_or_default_steps r3 c3
        rw [h4] at this
        exact this
      simp only
      rcases h5 : r4.read ASSIGN_OPERATOR with ⟨b5, r5⟩
      have hs5 : Steps r4 r5 := by
        have := Steps.read r4 ASSIGN_OPERATOR
        rw [h5] at this
        exact this
      cases b5 with
      | false => exact (((hs1.trans hs2).trans hs3).trans hs4).trans hs5
      | true =>
        simp only
        rcases h6 : Whitespace.parse_multiline_or_default r5 c4 with ⟨w3, r6, c6⟩
        have hs6 : Steps r5 r6 := by
          have := Whitespace.parse_multiline_or_default_steps r5 c4
          rw [h6] at this
          exact this
        simp only
        rcases h7 : Expression.parse r6 c6 with ⟨res7, r7, c7⟩
        have hs7 : Steps r6 r7 := by
          have := Expression.parse_steps_expression r6 c6
          rw [h7] at this
          exact this
        cases res7 with
        | error e =>
          exact (((((hs1.trans hs2).trans hs3).trans hs4).trans hs5).trans hs6).trans hs7
        | ok e =>
          exact (((((hs1.trans hs2).trans hs3).trans hs4).trans hs5).trans hs6).trans hs7

theorem ReturnStatement.parse_steps_rs (r : Reader) (ctx : ParserContext) :
    Steps r (ReturnStatement.parse r ctx).2.1 := by
  unfold ReturnStatement.parse
  apply cursor_manager_steps
  unfold ReturnStatement.parse_body
  rcases h1 : Identifier.parse_keyword r ctx RS_KEYWORD with ⟨b1, r1, c1⟩
  have hs1 : Steps r r1 := by
    have := Identifier.parse_keyword_steps r ctx RS_KEYWORD
    rw [h1] at this
    exact this
  cases b1 with
  | false => exact hs1
  | true =>
    simp only
    rcases h2 : Whitespace.parse_multiline_or_default r1 c1 with ⟨w1, r2, c2⟩
    have hs2 : Steps r1 r2 := by
      have := Whitespace.parse_multiline_or_default_steps r1 c1
      rw [h2] at this
      exact this
    simp only
    rcases h3 : Expression.parse r2 c2 with ⟨res3, r3, c3⟩
    have hs3 : Steps r2 r3 := by
      have := Expression.parse_steps_expression r2 c2
      rw [h3] at this
      exact this
    cases res3 with
    | error e => exact (hs1.trans hs2).trans hs3
    | ok e => exact (hs1.trans hs2).trans hs3

theorem Statement.parse_steps_statement (r : Reader) (ctx : ParserContext) :
    Steps r (Statement.parse r ctx).2.1 := by
  unfold Statement.parse
  rcases h1 : VariableDeclaration.parse r ctx with ⟨res, r1, c1⟩
  have hs1 : Steps r r1 := by
    have := VariableDeclaration.parse_steps_vd r ctx
    rw [h1] at this
    exact this
  cases res with
  | ok n => exact hs1
  | error e =>
    cases e with
    | Error => exact hs1
    | NotFound =>
      simp only
      rcases h2 : ReturnStatement.parse r1 c1 with ⟨res2, r2, c2⟩
      have hs2 : Steps r1 r2 := by
        have := ReturnStatement.parse_steps_rs r1 c1
        rw [h2] at this
        exact this
      cases res2 with
      | ok n => exact hs1.trans hs2
      | error e2 => cases e2 <;> exact hs1.trans hs2

/-- A successfully parsed variable declaration consumed at least one
character. -/
theorem VariableDeclaration.parse_ok_progress_vd {r : Reader} {ctx : ParserContext}
    {v : VariableDeclaration}
    (h : (VariableDeclaration.parse r ctx).1 = Except.ok v) :
    (VariableDeclaration.parse r ctx).2.1.remaining.length < r.remaining.length := by
  unfold VariableDeclaration.parse at h ⊢
  rcases cursor_manager_cases r ctx VariableDeclaration.parse_body with
    ⟨w, r', c', hbody, heq⟩ | ⟨r', c', hbody, heq⟩ | ⟨r', c', hbody, heq⟩ <;>
    rw [heq] at h ⊢
  · simp only
    unfold VariableDeclaration.parse_body at hbody
    revert hbody
    rcases h1 : Identifier.parse_keyword r ctx VD_KEYWORD with ⟨b1, r1, c1⟩
    cases b1 with
    | false => intro hbody; simp at hbody
    | true =>
      have hlt1 : r1.remaining.length < r.remaining.length := by
        have := Identifier.parse_keyword_true_progress
          (by rw [h1] : (Identifier.parse_keyword r ctx VD_KEYWORD).1 = true)
        rw [h1] at this
        exact this
      intro hbody
      simp only at hbody
      revert hbody
      rcases h2 : Whitespace.parse_multiline_or_default r1 c1 with ⟨w1, r2, c2⟩
      have hs2 : r2.remaining.length ≤ r1.remaining.length := by
        have := (Whitespace.parse_multiline_or_default_steps r1 c1).remaining_le
        rw [h2] at this
        exact this
      rcases h3 : Identifier.parse r2 c2 with ⟨res3, r3, c3⟩
      have hs3 : r3.remaining.length ≤ r2.remaining.length := by
        have := (Identifier.parse_steps_identifier r2 c2).remaining_le
        rw [h3] at this
        exact this
      cases res3 with
      | error e => intro hbody; simp at hbody
      | ok name =>
        intro hbody
        simp only at hbody
        revert hbody
        rcases h4 : Whitespace.parse_multiline_or_default r3 c3 with ⟨w2, r4, c4⟩
        have hs4 : r4.remaining.length ≤ r3.remaining.length := by
          have := (Whitespace.parse_multiline_or_default_steps r3 c3).remaining_le
          rw [h4] at this
          exact this
        rcases h5 : r4.read ASSIGN_OPERATOR with ⟨b5, r5⟩
        have hs5 : r5.remaining.length ≤ r4.remaining.length := by
          have := (Steps.read r4 ASSIGN_OPERATOR).remaining_le
          rw [h5] at this
          exact this
        cases b5 with
        | false => intro hbody; simp at hbody
        | true =>
          intro hbody
          simp only at hbody
          revert hbody
          rcases h6 : Whitespace.parse_multiline_or_default r5 c4 with ⟨w3, r6, c6⟩
          have hs6 : r6.remaining.length ≤ r5.remaining.length := by
            have := (Whitespace.parse_multiline_or_default_steps r5 c4).remaining_le
            rw [h6] at this
            exact this
          rcases h7 : Expression.parse r6 c6 with ⟨res7, r7, c7⟩
          have hs7 : r7.remaining.length ≤ r6.remaining.length := by
            have := (Expression.parse_steps_expression r6 c6).remaining_le
            rw [h7] at this
            exact this
          cases res7 with
          | error e => intro hbody; simp at hbody
          | ok e =>
            intro hbody
            have hr' : r' = r7 := by
              have := congrArg (fun t => t.2.1) hbody
              simpa using this.symm
            rw [hr']
            omega
  · simp at h
  · simp at h

/-- A successfully parsed return statement consumed at least one character. -/
theorem ReturnStatement.parse_ok_progress_rs {r : Reader} {ctx : ParserContext}
    {v : ReturnStatement}
    (h : (ReturnStatement.parse r ctx).1 = Except.ok v) :
    (ReturnStatement.parse r ctx).2.1.remaining.length < r.remaining.length := by
  unfold ReturnStatement.parse at h ⊢
  rcases cursor_manager_cases r ctx ReturnStatement.parse_body with
    ⟨w, r', c', hbody, heq⟩ | ⟨r', c', hbody, heq⟩ | ⟨r', c', hbody, heq⟩ <;>
    rw [heq] at h ⊢
  · simp only
    unfold ReturnStatement.parse_body at hbody
    revert hbody
    rcases h1 : Identifier.parse_keyword r ctx RS_KEYWORD with ⟨b1, r1, c1⟩
    cases b1 with
    | false => intro hbody; simp at hbody
    | true =>
      have hlt1 : r1.remaining.length < r.remaining.length := by
        have := Identifier.parse_keyword_true_progress
          (by rw [h1] : (Identifier.parse_keyword r ctx RS_KEYWORD).1 = true)
        rw [h1] at this
        exact this
      intro hbody
      simp only at hbody
      revert hbody
      rcases h2 : Whitespace.parse_multiline_or_default r1 c1 with ⟨w1, r2, c2⟩
      have hs2 : r2.remaining.length ≤ r1.remaining.length := by
        have := (Whitespace.parse_multiline_or_default_steps r1 c1).remaining_le
        rw [h2] at this
        exact this
      rcases h3 : Expression.parse r2 c2 with ⟨res3, r3, c3⟩
      have hs3 : r3.remaining.length ≤ r2.remaining.length := by
        have := (Expression.parse_steps_expression r2 c2).remaining_le
        rw [h3] at this
        exact this
      cases res3 with
      | error e => intro hbody; simp at hbody
      | ok e =>
        intro hbody
        have hr' : r' = r3 := by
          have := congrArg (fun t => t.2.1) hbody
          simpa using this.symm
        rw [hr']
        omega
  · simp at h
  · simp at h

/-- A successfully parsed statement consumed at least one character. -/
theorem Statement.parse_ok_progress_statement {r : Reader} {ctx : ParserContext}
    {st : Statement} (h : (Statement.parse r ctx).1 = Except.ok st) :
    (Statement.parse r ctx).2.1.remaining.length < r.remaining.length := by
  unfold Statement.parse at h ⊢
  revert h
  rcases h1 : VariableDeclaration.parse r ctx with ⟨res, r1, c1⟩
  cases res with
  | ok v =>
    intro h
    have := VariableDeclaration.parse_ok_progress_vd
      (by rw [h1] : (VariableDeclaration.parse r ctx).1 = Except.ok v)
    rw [h1] at this
    exact this
  | error e =>
    cases e with
    | Error => intro h; simp at h
    | NotFound =>
      simp only
      have hs1 : r1.remaining.length ≤ r.remaining.length := by
        have := (VariableDeclaration.parse_steps_vd r ctx).remaining_le
        rw [h1] at this
        exact this
      rcases h2 : ReturnStatement.parse r1 c1 with ⟨res2, r2, c2⟩
      cases res2 with
      | ok v =>
        intro h
        simp only
        have := ReturnStatement.parse_ok_progress_rs
          (by rw [h2] : (ReturnStatement.parse r1 c1).1 = Except.ok v)
        rw [h2] at this
        have h2lt : r2.remaining.length < r1.remaining.length := by simpa using this
        omega
      | error e2 => cases e2 <;> (intro h; simp at h)

/-! ### Grammar productions: files (src/parser/src/parsers/file.rs) -/

/-- A Mosfet file. -/
structure MosfetFile where
  span : Span
  statements : List Statement
deriving DecidableEq, Repr

/-- The statement loop of `MosfetFile::parse` (after the first statement):
parse multiline whitespace — its `Result` is only inspected for
multiline-ness, an `Error` counting as "not multiline" — then a statement;
two statements without a line break in between are a hard error; statement
`NotFound` ends the loop, statement `Error` aborts. -/
def MosfetFile.parse_loop (r : Reader) (ctx : ParserContext)
    (statements : List Statement) :
    Except ParserResultError (List Statement) × Reader × ParserContext :=
  match hw : Whitespace.parse_multiline r ctx with
  | (wres, r1, c1) =>
    match hst : Statement.parse r1 c1 with
    | (Except.ok st, r2, c2) =>
      if (match wres with
          | Except.ok w => w.is_multiline
          | Except.error _ => false) then
        MosfetFile.parse_loop r2 c2 (statements ++ [st])
      else
        (Except.error ParserResultError.Error, r2,
          c2.add_message (Message.error ParserError.TwoStatementsInSameLineInFile))
    | (Except.error ParserResultError.NotFound, r2, c2) =>
      (Except.ok statements, r2, c2)
    | (Except.error ParserResultError.Error, r2, c2) =>
      (Except.error ParserResultError.Error, r2, c2)
termination_by r.remaining.length
decreasing_by
  have hle : r1.remaining.length ≤ r.remaining.length := by
    have := (Whitespace.parse_multiline_steps_ws r ctx).remaining_le
    rw [hw] at this
    exact this
  have hok : (Statement.parse r1 c1).1 = Except.ok st := by rw [hst]
  have hp := Statement.parse_ok_progress_statement hok
  rw [hst] at hp
  have hp2 : r2.remaining.length < r1.remaining.length := by simpa using hp
  omega

/-- The closure body of `MosfetFile::parse`: leading whitespace (result
discarded), a first statement — whose failure yields an empty file at end of
input and a `NotAMosfetFile` hard error otherwise — then the statement loop
and the end-of-file check. -/
def MosfetFile.parse_body (r0 : Reader) (init : Cursor) (ctx0 : ParserContext) :
    ParserOutcome MosfetFile :=
  match Whitespace.parse_multiline r0 ctx0 with
  | (_, r1, c1) =>
    match Statement.parse r1 c1 with
    | (Except.error _, r2, c2) =>
      let span := r2.substring_to_current init
      if r2.remaining_length = 0 then
        (Except.ok { span := span, statements := [] }, r2, c2)
      else
        (Except.error ParserResultError.Error, r2,
          c2.add_message (Message.error ParserError.NotAMosfetFile))
    | (Except.ok st, r2, c2) =>
      match MosfetFile.parse_loop r2 c2 [st] with
      | (Except.error e, r3, c3) => (Except.error e, r3, c3)
      | (Except.ok statements, r3, c3) =>
        let span := r3.substring_to_current init
        if r3.remaining_length = 0 then
          (Except.ok { span := span, statements := statements }, r3, c3)
        else
          (Except.error ParserResultError.Error, r3,
            c3.add_message (Message.error ParserError.ExpectedEOFInFile))

/-- `MosfetFile::parse`. -/
def MosfetFile.parse (r : Reader) (ctx : ParserContext) : ParserOutcome MosfetFile :=
  cursor_manager r ctx MosfetFile.parse_body

theorem MosfetFile.parse_loop_steps (r : Reader) (ctx : ParserContext)
    (statements : List Statement) :
    Steps r (MosfetFile.parse_loop r ctx statements).2.1 := by
  induction r, ctx, statements using MosfetFile.parse_loop.induct with
  | case1 r ctx statements wres r1 c1 hw st r2 c2 hst hml ih =>
    rw [MosfetFile.parse_loop.eq_def, hw]
    simp only
    rw [hst]
    simp only
    rw [if_pos hml]
    have hs1 : Steps r r1 := by
      have := Whitespace.parse_multiline_steps_ws r ctx
      rw [hw] at this
      exact this
    have hs2 : Steps r1 r2 := by
      have := Statement.parse_steps_statement r1 c1
      rw [hst] at this
      exact this
    exact (hs1.trans hs2).trans ih
  | case2 r ctx statements wres r1 c1 hw st r2 c2 hst hml =>
    rw [MosfetFile.parse_loop.eq_def, hw]
    simp only
    rw [hst]
    simp only
    rw [if_neg hml]
    have hs1 : Steps r r1 := by
      have := Whitespace.parse_multiline_steps_ws r ctx
      rw [hw] at this
      exact this
    have hs2 : Steps r1 r2 := by
      have := Statement.parse_steps_statement r1 c1
      rw [hst] at this
      exact this
    exact hs1.trans hs2
  | case3 r ctx statements wres r1 c1 hw r2 c2 hst =>
    rw [MosfetFile.parse_loop.eq_def, hw]
    simp only
    rw [hst]
    have hs1 : Steps r r1 := by
      have := Whitespace.parse_multiline_steps_ws r ctx
      rw [hw] at this
      exact this
    have hs2 : Steps r1 r2 := by
      have := Statement.parse_steps_statement r1 c1
      rw [hst] at this
      exact this
    exact hs1.trans hs2
  | case4 r ctx statements wres r1 c1 hw r2 c2 hst =>
    rw [MosfetFile.parse_loop.eq_def, hw]
    simp only
    rw [hst]
    have hs1 : Steps r r1 := by
      have := Whitespace.parse_multiline_steps_ws r ctx
      rw [hw] at this
      exact this
    have hs2 : Steps r1 r2 := by
      have := Statement.parse_steps_statement r1 c1
      rw [hst] at this
      exact this
    exact hs1.trans hs2

theorem MosfetFile.parse_steps_file (r : Reader) (ctx : ParserContext) :
    Steps r (MosfetFile.parse r ctx).2.1 := by
  unfold MosfetFile.parse
  apply cursor_manager_steps
  unfold MosfetFile.parse_body
  rcases h1 : Whitespace.parse_multiline r ctx with ⟨wres, r1, c1⟩
  have hs1 : Steps r r1 := by
    have := Whitespace.parse_multiline_steps_ws r ctx
    rw [h1] at this
    exact this
  simp only
  rcases h2 : Statement.parse r1 c1 with ⟨res, r2, c2⟩
  have hs2 : Steps r1 r2 := by
    have := Statement.parse_steps_statement r1 c1
    rw [h2] at this
    exact this
  cases res with
  | error e =>
    by_cases hz : r2.remaining_length = 0
    · simp only [if_pos hz]
      exact hs1.trans hs2
    · simp only [if_neg hz]
      exact hs1.trans hs2
  | ok st =>
    simp only
    rcases h3 : MosfetFile.parse_loop r2 c2 [st] with ⟨res3, r3, c3⟩
    have hs3 : Steps r2 r3 := by
      have := MosfetFile.parse_loop_steps r2 c2 [st]
      rw [h3] at this
      exact this
    cases res3 with
    | error e => exact (hs1.trans hs2).trans hs3
    | ok sts =>
      by_cases hz : r3.remaining_length = 0
      · simp only [if_pos hz]
        exact (hs1.trans hs2).trans hs3
      · simp only [if_neg hz]
        exact (hs1.trans hs2).trans hs3

/-! ### Generic facts feeding the claim theorems -/

/-- `read` succeeds whenever the text to read is literally the front of the
remaining input. -/
theorem Reader.read_pfx_true {r : Reader} {text rest : List Char}
    (h : r.remaining = text ++ rest) : (r.read text).1 = true := by
  have hc : r.continues_with text = true := by
    rw [Reader.continues_with, h]
    exact List.isPrefixOf_iff_prefix.mpr ⟨rest, rfl⟩
  simp [Reader.read, hc]

/-- The repeat-marker loop of `Comment::parse_multiline` counts at least one
marker when one is present. -/
theorem Comment.read_repeats_pos {r : Reader}
    (h : (r.read MULTILINE_COMMENT_REPEAT_TOKEN).1 = true) :
    0 < (Comment.read_repeats r).1 := by
  rw [Comment.read_repeats.eq_def]
  revert h
  rcases hr : r.read MULTILINE_COMMENT_REPEAT_TOKEN with ⟨b, r'⟩
  intro h
  obtain rfl : b = true := h
  simp only
  exact Nat.succ_pos _

/-- The span a rule builds with `substring_to_current` is exactly the text
consumed between entry and exit: the entry's remaining input is that span's
content followed by the exit's remaining input. -/
theorem span_decomposition {r r' : Reader} (hc : r'.content = r.content)
    (hle : r.cursor.offset ≤ r'.cursor.offset)
    (hco : r.cursor.char_offset ≤ r'.cursor.char_offset) :
    r.remaining = (r'.substring_to_current r.cursor).content ++ r'.remaining := by
  unfold Reader.substring_to_current
  rw [if_pos hle]
  unfold Span.content Reader.remaining
  simp only
  rw [hc, List.drop_take]
  have hdd : (r.content.drop r.cursor.char_offset).drop
      (r'.cursor.char_offset - r.cursor.char_offset)
      = r.content.drop r'.cursor.char_offset := by
    rw [List.drop_drop]
    congr 1
    omega
  rw [← hdd, List.take_append_drop]

/-- A successfully parsed identifier's content is exactly the text consumed
from the entry point: entry remaining = content ++ exit remaining. -/
theorem Identifier.parse_ok_decomp {r : Reader} {ctx : ParserContext}
    {i : Identifier} (h : (Identifier.parse r ctx).1 = Except.ok i) :
    r.remaining = i.content ++ (Identifier.parse r ctx).2.1.remaining := by
  unfold Identifier.parse at h ⊢
  rcases cursor_manager_cases r ctx Identifier.parse_body with
    ⟨v, r', c', hbody, heq⟩ | ⟨r', c', hbody, heq⟩ | ⟨r', c', hbody, heq⟩ <;>
    rw [heq] at h ⊢
  · simp only at h ⊢
    obtain rfl : v = i := by simpa using h
    unfold Identifier.parse_body at hbody
    revert hbody
    rcases h1 : r.read_one_of HEAD_CHARS with ⟨o, r1⟩
    cases o with
    | none => intro hbody; simp at hbody
    | some c =>
      intro hbody
      have hs : Steps r (r1.read_many_of BODY_CHARS).2 := by
        have hs1 : Steps r r1 := by
          have := Steps.read_one_of r HEAD_CHARS
          rw [h1] at this
          exact this
        exact hs1.trans (Steps.read_many_of r1 BODY_CHARS)
      simp only [Prod.mk.injEq] at hbody
      obtain ⟨hv, hr, -⟩ := hbody
      obtain rfl : r' = (r1.read_many_of BODY_CHARS).2 := hr.symm
      obtain rfl : v = ⟨(r1.read_many_of BODY_CHARS).2.substring_to_current r.cursor⟩ := by
        simpa using hv.symm
      exact span_decomposition hs.1 hs.2.1 hs.2.2
  · simp at h
  · simp at h

/-- `Identifier::parse` either succeeds or returns `NotFound` with the reader
fully restored; it never raises a hard Error. -/
theorem Identifier.parse_err_exit {r : Reader} {ctx : ParserContext}
    {e : ParserResultError} (h : (Identifier.parse r ctx).1 = Except.error e) :
    (Identifier.parse r ctx).2.1 = r ∧ e = ParserResultError.NotFound := by
  unfold Identifier.parse at h ⊢
  rcases cursor_manager_cases r ctx Identifier.parse_body with
    ⟨v, r', c', hbody, heq⟩ | ⟨r', c', hbody, heq⟩ | ⟨r', c', hbody, heq⟩ <;>
    rw [heq] at h ⊢
  · simp at h
  · refine ⟨?_, by simpa using h.symm⟩
    simp only
    unfold Identifier.parse_body at hbody
    revert hbody
    rcases h1 : r.read_one_of HEAD_CHARS with ⟨o, r1⟩
    cases o with
    | some c => intro hbody; simp at hbody
    | none =>
      intro hbody
      have hr1 : r1 = r := by
        have hn : (r.read_one_of HEAD_CHARS).1 = none := by rw [h1]
        have := Reader.read_one_of_none hn
        rw [h1] at this
        exact this
      have hr' : r' = r1 := by
        have := congrArg (fun t => t.2.1) hbody
        simpa using this.symm
      rw [hr', hr1]
      rfl
  · exfalso
    unfold Identifier.parse_body at hbody
    revert hbody
    rcases h1 : r.read_one_of HEAD_CHARS with ⟨o, r1⟩
    cases o <;> intro hbody <;> simp at hbody

/-- Exit cursor of a `cursor_manager`-wrapped rule that returned `NotFound`:
exactly the entry cursor. -/
theorem cursor_manager_notFound_cursor {T : Type} (r : Reader) (ctx : ParserContext)
    (body : Reader → Cursor → ParserContext → ParserOutcome T)
    (h : (cursor_manager r ctx body).1 = Except.error ParserResultError.NotFound) :
    (cursor_manager r ctx body).2.1.cursor = r.cursor := by
  rcases cursor_manager_cases r ctx body with
    ⟨v, r', c', hb, heq⟩ | ⟨r', c', hb, heq⟩ | ⟨r', c', hb, heq⟩ <;> rw [heq] at h ⊢
  · simp at h
  · rfl
  · simp at h

/-- The cursor discipline of grammar rules: the exit reader is reachable
forward (same content, cursor never behind entry), and a `NotFound` exit
restores the entry cursor exactly. -/
def RuleCursorDiscipline {T : Type}
    (rule : Reader → ParserContext → ParserOutcome T) : Prop :=
  ∀ r ctx, Steps r (rule r ctx).2.1 ∧
    ((rule r ctx).1 = Except.error ParserResultError.NotFound →
      (rule r ctx).2.1.cursor = r.cursor)

/-- Every `cursor_manager`-wrapped rule with forward-or-still body obeys the
cursor discipline. -/
theorem rule_discipline_of_wrapped {T : Type}
    (body : Reader → Cursor → ParserContext → ParserOutcome T)
    (hsteps : ∀ r ctx, Steps r (cursor_manager r ctx body).2.1) :
    RuleCursorDiscipline (fun r ctx => cursor_manager r ctx body) :=
  fun r ctx => ⟨hsteps r ctx, fun h => cursor_manager_notFound_cursor r ctx body h⟩

theorem Literal.parse_notFound_cursor_literal (r : Reader) (ctx : ParserContext)
    (h : (Literal.parse r ctx).1 = Except.error ParserResultError.NotFound) :
    (Literal.parse r ctx).2.1.cursor = r.cursor := by
  unfold Literal.parse at h ⊢
  revert h
  rcases h1 : Number.parse r ctx with ⟨res, r1, c1⟩
  cases res with
  | ok n => intro h; simp at h
  | error e =>
    cases e with
    | Error => intro h; simp at h
    | NotFound =>
      intro _
      have hn0 : (Number.parse r ctx).1 = Except.error ParserResultError.NotFound := by
        rw [h1]
      have hn : (Number.parse r ctx).2.1.cursor = r.cursor :=
        cursor_manager_notFound_cursor r ctx Number.parse_body hn0
      rw [h1] at hn
      exact hn

theorem Expression.parse_notFound_cursor_expression (r : Reader) (ctx : ParserContext)
    (h : (Expression.parse r ctx).1 = Except.error ParserResultError.NotFound) :
    (Expression.parse r ctx).2.1.cursor = r.cursor := by
  unfold Expression.parse at h ⊢
  revert h
  rcases h1 : Literal.parse r ctx with ⟨res, r1, c1⟩
  cases res with
  | ok n => intro h; simp at h
  | error e =>
    cases e with
    | Error => intro h; simp at h
    | NotFound =>
      simp only
      rcases h2 : Identifier.parse r1 c1 with ⟨res2, r2, c2⟩
      have hl : r1.cursor = r.cursor := by
        have h0 : (Literal.parse r ctx).1 = Except.error ParserResultError.NotFound := by
          rw [h1]
        have := Literal.parse_notFound_cursor_literal r ctx h0
        rw [h1] at this
        exact this
      cases res2 with
      | ok n => intro h; simp at h
      | error e2 =>
        cases e2 with
        | Error => intro h; simp at h
        | NotFound =>
          intro _
          have h0 : (Identifier.parse r1 c1).1
              = Except.error ParserResultError.NotFound := by rw [h2]
          have hi : (Identifier.parse r1 c1).2.1.cursor = r1.cursor :=
            cursor_manager_notFound_cursor r1 c1 Identifier.parse_body h0
          rw [h2] at hi
          exact hi.trans hl

theorem Statement.parse_notFound_cursor_statement (r : Reader) (ctx : ParserContext)
    (h : (Statement.parse r ctx).1 = Except.error ParserResultError.NotFound) :
    (Statement.parse r ctx).2.1.cursor = r.cursor := by
  unfold Statement.parse at h ⊢
  revert h
  rcases h1 : VariableDeclaration.parse r ctx with ⟨res, r1, c1⟩
  cases res with
  | ok n => intro h; simp at h
  | error e =>
    cases e with
    | Error => intro h; simp at h
    | NotFound =>
      simp only
      rcases h2 : ReturnStatement.parse r1 c1 with ⟨res2, r2, c2⟩
      have hv : r1.cursor = r.cursor := by
        have h0 : (VariableDeclaration.parse r ctx).1
            = Except.error ParserResultError.NotFound := by rw [h1]
        have hv0 : (VariableDeclaration.parse r ctx).2.1.cursor = r.cursor :=
          cursor_manager_notFound_cursor r ctx VariableDeclaration.parse_body h0
        rw [h1] at hv0
        exact hv0
      cases res2 with
      | ok n => intro h; simp at h
      | error e2 =>
        cases e2 with
        | Error => intro h; simp at h
        | NotFound =>
          intro _
          have h0 : (ReturnStatement.parse r1 c1).1
              = Except.error ParserResultError.NotFound := by rw [h2]
          have hrs : (ReturnStatement.parse r1 c1).2.1.cursor = r1.cursor :=
            cursor_manager_notFound_cursor r1 c1 ReturnStatement.parse_body h0
          rw [h2] at hrs
          exact hrs.trans hv

/-- The result component of a `cursor_manager`-wrapped rule is exactly the
body's result. -/
theorem cursor_manager_fst {T : Type} (r : Reader) (ctx : ParserContext)
    (body : Reader → Cursor → ParserContext → ParserOutcome T) :
    (cursor_manager r ctx body).1 = (body r r.cursor ctx).1 := by
  rcases cursor_manager_cases r ctx body with
    ⟨v, r', c', hb, heq⟩ | ⟨r', c', hb, heq⟩ | ⟨r', c', hb, heq⟩ <;> rw [heq, hb]

/-! Correctness of the newline scans backing `Span::lines`. -/

theorem firstNewlineIdx_none {l : List Char} (h : firstNewlineIdx l = none) :
    '\n' ∉ l := by
  induction l with
  | nil => simp
  | cons c rest ih =>
    rw [firstNewlineIdx] at h
    split at h
    case isTrue hc => simp at h
    case isFalse hc =>
      rcases ho : firstNewlineIdx rest with _ | w
      · simp [List.mem_cons]
        exact ⟨fun he => hc he.symm, ih ho⟩
      · rw [ho] at h; simp at h

theorem firstNewlineIdx_some {l : List Char} {v : Nat}
    (h : firstNewlineIdx l = some v) :
    l.get? v = some '\n' ∧ '\n' ∉ l.take v := by
  induction l generalizing v with
  | nil => simp [firstNewlineIdx] at h
  | cons c rest ih =>
    rw [firstNewlineIdx] at h
    split at h
    case isTrue hc =>
      obtain rfl : v = 0 := by simpa using h.symm
      simp [hc]
    case isFalse hc =>
      rcases ho : firstNewlineIdx rest with _ | w
      · rw [ho] at h; simp at h
      · rw [ho] at h
        obtain rfl : v = w + 1 := by simpa using h.symm
        obtain ⟨h1, h2⟩ := ih ho
        refine ⟨by simpa using h1, ?_⟩
        rw [List.take_succ_cons]
        simp [List.mem_cons]
        exact ⟨fun he => hc he.symm, h2⟩

theorem lastNewlineIdx_none {l : List Char} (h : lastNewlineIdx l = none) :
    '\n' ∉ l := by
  induction l with
  | nil => simp
  | cons c rest ih =>
    rw [lastNewlineIdx] at h
    rcases ho : lastNewlineIdx rest with _ | w
    · rw [ho] at h
      simp only at h
      split at h
      case isTrue hc => simp at h
      case isFalse hc =>
        simp [List.mem_cons]
        exact ⟨fun he => hc he.symm, ih ho⟩
    · rw [ho] at h; simp at h

theorem lastNewlineIdx_some {l : List Char} {v : Nat}
    (h : lastNewlineIdx l = some v) :
    l.get? v = some '\n' ∧ '\n' ∉ l.drop (v + 1) := by
  induction l generalizing v with
  | nil => simp [lastNewlineIdx] at h
  | cons c rest ih =>
    rw [lastNewlineIdx] at h
    rcases ho : lastNewlineIdx rest with _ | w
    · rw [ho] at h
      simp only at h
      split at h
      case isTrue hc =>
        obtain rfl : v = 0 := by simpa using h.symm
        simp [hc]
        exact lastNewlineIdx_none ho
      case isFalse hc => simp at h
    · rw [ho] at h
      obtain rfl : v = w + 1 := by simpa using h.symm
      obtain ⟨h1, h2⟩ := ih ho
      exact ⟨by simpa using h1, by simpa using h2⟩

/-- What a successful `IntegerNumber::parse_number` produces: the digits span
(which also serves as the node's span until `parse` re-spans it) delimits
exactly the text consumed since entry, the recorded radix and prefix flag are
the arguments, and the entry's remaining input is the digits content followed
by the exit's remaining input. -/
theorem IntegerNumber.parse_number_ok {r : Reader} {ctx : ParserContext}
    {iv : List (Char × Char)} {radix : Radix} {hp : Bool} {n : IntegerNumber}
    (h : (IntegerNumber.parse_number r ctx iv radix hp).1 = Except.ok n) :
    n.span = (IntegerNumber.parse_number r ctx iv radix hp).2.1.substring_to_current
      r.cursor ∧
    n.digits = n.span ∧ n.hasPfx = hp ∧ n.radix = radix ∧
    r.remaining = n.digits.content
      ++ (IntegerNumber.parse_number r ctx iv radix hp).2.1.remaining := by
  unfold IntegerNumber.parse_number at h ⊢
  rcases cursor_manager_cases r ctx (IntegerNumber.parse_number_body iv radix hp) with
    ⟨v, r', c', hbody, heq⟩ | ⟨r', c', hbody, heq⟩ | ⟨r', c', hbody, heq⟩ <;>
    rw [heq] at h ⊢
  · simp only at h ⊢
    obtain rfl : v = n := by simpa using h
    unfold IntegerNumber.parse_number_body at hbody
    revert hbody
    rcases h1 : r.read_many_of iv with ⟨o, r1⟩
    cases o with
    | none =>
      cases hp
      · intro hbody; simp at hbody
      · simp only
        rcases h2 : r1.read_one_of SEPARATOR_RANGE with ⟨o2, r2⟩
        cases o2 <;> intro hbody <;> simp at hbody
    | some run =>
      intro hbody
      have hs : Steps r (number_grouping_loop iv r1) := by
        have hs1 : Steps r r1 := by
          have := Steps.read_many_of r iv
          rw [h1] at this
          exact this
        exact hs1.trans (number_grouping_loop_steps iv r1)
      simp only [Prod.mk.injEq] at hbody
      obtain ⟨hv, hr, -⟩ := hbody
      obtain rfl : r' = number_grouping_loop iv r1 := hr.symm
      obtain rfl : v = ⟨(number_grouping_loop iv r1).substring_to_current r.cursor,
          hp, radix, (number_grouping_loop iv r1).substring_to_current r.cursor⟩ := by
        simpa using hv.symm
      exact ⟨rfl, rfl, rfl, rfl, span_decomposition hs.1 hs.2.1 hs.2.2⟩
  · simp at h
  · simp at h

/-- A prefixed branch of `IntegerNumber::parse`: after consuming the radix
prefix and parsing the number, the re-spanned node's span content is the
prefix text followed by the digits content, and the branch consumed exactly
prefix-plus-digits from the entry point. -/
theorem IntegerNumber.pfx_branch {r0 r1 r2 : Reader} {ctx c2 : ParserContext}
    {iv : List (Char × Char)} {radix : Radix} {pfx : List Char}
    {m : IntegerNumber}
    (h1 : r0.read pfx = (true, r1))
    (hpn : IntegerNumber.parse_number r1 ctx iv radix true
      = (Except.ok m, r2, c2)) :
    (r2.substring_to_current r0.cursor).content = pfx ++ m.digits.content ∧
    r0.remaining = pfx ++ (m.digits.content ++ r2.remaining) ∧ m.radix = radix := by
  have h1' : (r0.read pfx).1 = true := by rw [h1]
  obtain ⟨hsplit, -⟩ := Reader.read_true h1'
  rw [h1] at hsplit
  have hok : (IntegerNumber.parse_number r1 ctx iv radix true).1 = Except.ok m := by
    rw [hpn]
  obtain ⟨-, -, -, hm_radix, hm_rem⟩ := IntegerNumber.parse_number_ok hok
  rw [hpn] at hm_rem
  have hs : Steps r0 r2 := by
    have hs1 : Steps r0 r1 := by
      have := Steps.read r0 pfx
      rw [h1] at this
      exact this
    have hs2 : Steps r1 r2 := by
      have := IntegerNumber.parse_number_steps_integer r1 ctx iv radix true
      rw [hpn] at this
      exact this
    exact hs1.trans hs2
  have hdec := span_decomposition hs.1 hs.2.1 hs.2.2
  have hrem : r0.remaining = pfx ++ (m.digits.content ++ r2.remaining) := by
    rw [hsplit, hm_rem]
  refine ⟨?_, hrem, hm_radix⟩
  have hcat : (r2.substring_to_current r0.cursor).content ++ r2.remaining
      = (pfx ++ m.digits.content) ++ r2.remaining := by
    rw [List.append_assoc]
    exact hdec.symm.trans hrem
  exact List.append_cancel_right hcat

/-! ### Claim theorems -/

deriving instance DecidableEq for Except

unseal Comment.read_repeats Whitespace.parse_inline_loop Whitespace.multiline_ws_run Whitespace.parse_multiline_loop number_grouping_loop MosfetFile.parse_loop

/-- C4: `IntegerNumber::parse` behaves exactly as the enumerated scenarios:
`"25"` yields a decimal number, no prefix, digits `"25"`; `"0b10"` yields
binary, prefixed, digits `"10"`; `"0x123"` yields hexadecimal, prefixed,
digits `"123"`; `"0b_1"` yields a hard Error with diagnostic
`NumberWithSeparatorAfterPrefix`; `"0x"` alone yields a hard Error with
diagnostic `NumberWithoutDigitsAfterPrefix`; `"000"` succeeds and records a
`NumberWithLeadingZeroes` warning; `"0"` succeeds and records no warning. -/
theorem claim_C4 :
    ((IntegerNumber.parse (Reader.new "25".toList) {}).1.map
        (fun n => (n.radix, n.hasPfx, n.digits.content))
      = Except.ok (Radix.Decimal, false, "25".toList)) ∧
    ((IntegerNumber.parse (Reader.new "0b10".toList) {}).1.map
        (fun n => (n.radix, n.hasPfx, n.digits.content))
      = Except.ok (Radix.Binary, true, "10".toList)) ∧
    ((IntegerNumber.parse (Reader.new "0x123".toList) {}).1.map
        (fun n => (n.radix, n.hasPfx, n.digits.content))
      = Except.ok (Radix.Hexadecimal, true, "123".toList)) ∧
    ((IntegerNumber.parse (Reader.new "0b_1".toList) {}).1
      = Except.error ParserResultError.Error) ∧
    ((IntegerNumber.parse (Reader.new "0b_1".toList) {}).2.2.messages
      = [Message.error ParserError.NumberWithSeparatorAfterPrefix]) ∧
    ((IntegerNumber.parse (Reader.new "0x".toList) {}).1
      = Except.error ParserResultError.Error) ∧
    ((IntegerNumber.parse (Reader.new "0x".toList) {}).2.2.messages
      = [Message.error ParserError.NumberWithoutDigitsAfterPrefix]) ∧
    ((IntegerNumber.parse (Reader.new "000".toList) {}).1.isOk = true) ∧
    ((IntegerNumber.parse (Reader.new "000".toList) {}).2.2.messages
      = [Message.warning ParserWarning.NumberWithLeadingZeroes]) ∧
    ((IntegerNumber.parse (Reader.new "0".toList) {}).1.isOk = true) ∧
    ((IntegerNumber.parse (Reader.new "0".toList) {}).2.2.messages = []) := by
  decide

/-- C6: `MosfetFile::parse` behaves exactly as the enumerated file scenarios:
`"let x = 3 let y = 4"` yields a hard Error with diagnostic
`TwoStatementsInSameLineInFile`; `"let x = 3 t"` yields a hard Error with
diagnostic `ExpectedEOFInFile`; empty and whitespace-only input succeed with
zero statements; and leftover input with no statement parsed at all (here
`" \n t"`) yields the `NotAMosfetFile` error rather than a generic
expectation mismatch. -/
theorem claim_C6 :
    ((MosfetFile.parse (Reader.new "let x = 3 let y = 4".toList) {}).1
      = Except.error ParserResultError.Error) ∧
    ((MosfetFile.parse (Reader.new "let x = 3 let y = 4".toList) {}).2.2.messages
      = [Message.error ParserError.TwoStatementsInSameLineInFile]) ∧
    ((MosfetFile.parse (Reader.new "let x = 3 t".toList) {}).1
      = Except.error ParserResultError.Error) ∧
    ((MosfetFile.parse (Reader.new "let x = 3 t".toList) {}).2.2.messages
      = [Message.error ParserError.ExpectedEOFInFile]) ∧
    ((MosfetFile.parse (Reader.new "".toList) {}).1.map MosfetFile.statements
      = Except.ok []) ∧
    ((MosfetFile.parse (Reader.new "".toList) {}).2.2.messages = []) ∧
    ((MosfetFile.parse (Reader.new "   \t \t \n\r\n    \t \t ".toList) {}).1.map
        MosfetFile.statements
      = Except.ok []) ∧
    ((MosfetFile.parse (Reader.new "   \t \t \n\r\n    \t \t ".toList) {}).2.2.messages
      = []) ∧
    ((MosfetFile.parse (Reader.new " \n t".toList) {}).1
      = Except.error ParserResultError.Error) ∧
    ((MosfetFile.parse (Reader.new " \n t".toList) {}).2.2.messages
      = [Message.error ParserError.NotAMosfetFile]) := by
  decide

/-- C7: `Comment::parse_multiline` accepts `"#+#"` as an immediately-closed
multiline-type comment with empty message (one repeat marker), rejects the
unterminated `"#++ unterminated"` with a hard Error recording
`MultilineCommentWithoutEndToken`, and — once the input begins with `'#'`
followed by a `'+'` repeat marker — never returns `NotFound` on any input:
the opening token is unambiguous, so the only outcomes are Ok and Error. -/
theorem claim_C7 :
    ((Comment.parse_multiline (Reader.new "#+#".toList) {}).1.map
        (fun c => (c.is_multiline_type, c.message.content, c.immediately_closed,
          c.repeated_tokens))
      = Except.ok (true, [], true, 1)) ∧
    ((Comment.parse_multiline (Reader.new "#++ unterminated".toList) {}).1
      = Except.error ParserResultError.Error) ∧
    ((Comment.parse_multiline (Reader.new "#++ unterminated".toList) {}).2.2.messages
      = [Message.error ParserError.MultilineCommentWithoutEndToken]) ∧
    (∀ (r : Reader) (ctx : ParserContext) (rest : List Char),
      r.remaining = '#' :: '+' :: rest →
      (Comment.parse_multiline r ctx).1 ≠ Except.error ParserResultError.NotFound) := by
  refine ⟨by decide, by decide, by decide, ?_⟩
  intro r ctx rest hrem hnf
  unfold Comment.parse_multiline at hnf
  rcases cursor_manager_cases r ctx Comment.parse_multiline_body with
    ⟨v, r', c', hbody, heq⟩ | ⟨r', c', hbody, heq⟩ | ⟨r', c', hbody, heq⟩ <;>
    rw [heq] at hnf
  · simp at hnf
  · -- the body cannot return NotFound when the input opens with "#+"
    clear hnf heq
    have hread1 : (r.read MULTILINE_COMMENT_TOKEN).1 = true :=
      @Reader.read_pfx_true r MULTILINE_COMMENT_TOKEN ('+' :: rest) hrem
    obtain ⟨-, hr1⟩ := Reader.read_true hread1
    have hrem1 : (r.consume 1).remaining = '+' :: rest := by
      rw [Reader.consume_remaining, hrem]
      rfl
    have hread2 : ((r.consume 1).read MULTILINE_COMMENT_REPEAT_TOKEN).1 = true :=
      @Reader.read_pfx_true (r.consume 1) MULTILINE_COMMENT_REPEAT_TOKEN rest hrem1
    have hpos := Comment.read_repeats_pos hread2
    unfold Comment.parse_multiline_body at hbody
    revert hbody
    rcases h1 : r.read MULTILINE_COMMENT_TOKEN with ⟨b1, r1⟩
    obtain rfl : b1 = true := by rw [h1] at hread1; exact hread1
    have hr1' : r1 = r.consume 1 := by rw [h1] at hr1; exact hr1
    subst hr1'
    simp only
    rw [if_neg (Nat.pos_iff_ne_zero.mp hpos)]
    rcases h2 : (Comment.read_repeats (r.consume 1)).2.read MULTILINE_COMMENT_TOKEN
      with ⟨b2, r3⟩
    cases b2
    · simp only
      rcases h3 : r3.read_until
          (List.replicate (Comment.read_repeats (r.consume 1)).1 '+' ++ ['#']) false
        with ⟨o, r4⟩
      cases o <;> intro hbody <;> simp at hbody
    · intro hbody
      simp at hbody
  · simp at hnf

/-- Witness for C7: the never-NotFound conjunct applied to the concrete input
`"#+x"`, whose remaining input starts with `'#'` then `'+'`. -/
theorem claim_C7_witness :
    (Comment.parse_multiline (Reader.new "#+x".toList) {}).1
      ≠ Except.error ParserResultError.NotFound :=
  claim_C7.2.2.2 (Reader.new "#+x".toList) {} ['x'] (by decide)

/-- C2, counterexample: on input `"#++"` the multiline-comment rule signals a
hard Error — `Comment::parse_multiline` at the start of that input returns
`Error` and the `MultilineCommentWithoutEndToken` diagnostic is recorded — yet
the error is discarded by the whitespace handling of `MosfetFile::parse` and
the top-level parse returns Ok (an empty file), refuting the claim that every
sub-rule Error propagates to a top-level Error. -/
theorem claim_C2_counterexample :
    ((Comment.parse_multiline (Reader.new "#++".toList) {}).1
      = Except.error ParserResultError.Error) ∧
    ((MosfetFile.parse (Reader.new "#++".toList) {}).1.map MosfetFile.statements
      = Except.ok []) ∧
    ((MosfetFile.parse (Reader.new "#++".toList) {}).2.2.messages
      = [Message.error ParserError.MultilineCommentWithoutEndToken]) := by
  decide

/-- C5, counterexample: on input `"1__2"` — of the form digits + `"__"` +
digits — the parsed number does not stop before the doubled separator: the
digits span is the whole of `"1__2"` and the reader consumed all four
characters. -/
theorem claim_C5_counterexample :
    ((IntegerNumber.parse (Reader.new "1__2".toList) {}).1.map
        (fun n => n.digits.content)
      = Except.ok "1__2".toList) ∧
    ((IntegerNumber.parse (Reader.new "1__2".toList) {}).2.1.remaining = []) := by
  decide

/-- C8: `Identifier::parse_keyword` parses a full identifier and returns true
exactly when that identifier's text equals the keyword; on success it consumed
exactly the keyword, and whenever it returns false — the parsed identifier
differs from the keyword, or no identifier parses at all — the reader is
exactly as it was on entry. In particular a keyword is never recognized as a
prefix of a longer identifier: on input `"lettuce"` with keyword `"let"` the
full identifier `lettuce` is parsed, differs from `let`, and the call returns
false with the reader rolled back. -/
theorem claim_C8 (r : Reader) (ctx : ParserContext) (kw : List Char) :
    ((Identifier.parse_keyword r ctx kw).1 = true ↔
      ∃ i, (Identifier.parse r ctx).1 = Except.ok i ∧ i.content = kw) ∧
    ((Identifier.parse_keyword r ctx kw).1 = true →
      r.remaining = kw ++ (Identifier.parse_keyword r ctx kw).2.1.remaining) ∧
    ((Identifier.parse_keyword r ctx kw).1 = false →
      (Identifier.parse_keyword r ctx kw).2.1 = r) := by
  unfold Identifier.parse_keyword
  simp only [Reader.save_cursor]
  rcases hp : Identifier.parse r ctx with ⟨res, r1, c1⟩
  have hsteps := Identifier.parse_steps_identifier r ctx
  rw [hp] at hsteps
  cases res with
  | ok id =>
    simp only
    by_cases hkw : id.content = kw
    · rw [if_pos hkw]
      refine ⟨⟨fun _ => ⟨id, rfl, hkw⟩, fun _ => rfl⟩, ?_, ?_⟩
      · intro _
        have hdec := Identifier.parse_ok_decomp
          (show (Identifier.parse r ctx).1 = Except.ok id by rw [hp])
        rw [hp] at hdec
        rw [← hkw]
        exact hdec
      · intro hfalse
        simp at hfalse
    · rw [if_neg hkw]
      refine ⟨⟨fun hfalse => by simp at hfalse, ?_⟩, fun hfalse => by simp at hfalse, ?_⟩
      · rintro ⟨i, hi, hik⟩
        obtain rfl : id = i := by simpa using hi
        exact absurd hik hkw
      · intro _
        show r1.restore r.cursor = r
        have hcontent : r1.content = r.content := hsteps.1
        unfold Reader.restore
        rw [hcontent]
  | error e =>
    simp only
    have herr := Identifier.parse_err_exit
      (show (Identifier.parse r ctx).1 = Except.error e by rw [hp])
    rw [hp] at herr
    refine ⟨⟨fun hfalse => by simp at hfalse, ?_⟩, fun hfalse => by simp at hfalse, ?_⟩
    · rintro ⟨i, hi, -⟩
      simp at hi
    · intro _
      exact herr.1

/-- Witness for C8 at concrete inputs: on `"lettuce"` with keyword `"let"` the
call returns false and rolls the reader back to entry; on `"let x"` it returns
true having consumed exactly `"let"`. -/
theorem claim_C8_witness :
    ((Identifier.parse_keyword (Reader.new "lettuce".toList) {} "let".toList).2.1
      = Reader.new "lettuce".toList) ∧
    ((Reader.new "let x".toList).remaining = "let".toList ++
      (Identifier.parse_keyword (Reader.new "let x".toList) {} "let".toList).2.1.remaining) :=
  ⟨(claim_C8 (Reader.new "lettuce".toList) {} "let".toList).2.2 (by decide),
   (claim_C8 (Reader.new "let x".toList) {} "let".toList).2.1 (by decide)⟩

/-- C1: `cursor_manager` saves the entry cursor, passes `Ok` and `Error`
through with the reader exactly as the body left it, and restores the saved
cursor exactly when the body returns `NotFound`; consequently every grammar
rule obeys the rollback invariant (`NotFound` exits with the entry cursor) and
the forward-or-still invariant (the exit cursor is never behind the entry
cursor, and the content is untouched) — stated for all thirteen rules. -/
theorem claim_C1 :
    (∀ (T : Type) (r : Reader) (ctx : ParserContext)
        (body : Reader → Cursor → ParserContext → ParserOutcome T)
        (v : T) (r' : Reader) (ctx' : ParserContext),
      (body r r.cursor ctx = (Except.ok v, r', ctx') →
        cursor_manager r ctx body = (Except.ok v, r', ctx')) ∧
      (body r r.cursor ctx = (Except.error ParserResultError.Error, r', ctx') →
        cursor_manager r ctx body = (Except.error ParserResultError.Error, r', ctx')) ∧
      (body r r.cursor ctx = (Except.error ParserResultError.NotFound, r', ctx') →
        cursor_manager r ctx body
          = (Except.error ParserResultError.NotFound, r'.restore r.cursor, ctx'))) ∧
    RuleCursorDiscipline Identifier.parse ∧
    RuleCursorDiscipline Comment.parse_inline ∧
    RuleCursorDiscipline Comment.parse_multiline ∧
    RuleCursorDiscipline Whitespace.parse_inline ∧
    RuleCursorDiscipline Whitespace.parse_multiline ∧
    RuleCursorDiscipline Number.parse ∧
    RuleCursorDiscipline IntegerNumber.parse ∧
    RuleCursorDiscipline Literal.parse ∧
    RuleCursorDiscipline Expression.parse ∧
    RuleCursorDiscipline VariableDeclaration.parse ∧
    RuleCursorDiscipline ReturnStatement.parse ∧
    RuleCursorDiscipline Statement.parse ∧
    RuleCursorDiscipline MosfetFile.parse := by
  refine ⟨?_, ?_, ?_, ?_, ?_, ?_, ?_, ?_, ?_, ?_, ?_, ?_, ?_, ?_⟩
  · intro T r ctx body v r' ctx'
    exact ⟨fun h => cursor_manager_ok h, fun h => cursor_manager_error h,
      fun h => cursor_manager_notFound h⟩
  · exact rule_discipline_of_wrapped Identifier.parse_body Identifier.parse_steps_identifier
  · exact rule_discipline_of_wrapped Comment.parse_inline_body Comment.parse_inline_steps_comment
  · exact rule_discipline_of_wrapped Comment.parse_multiline_body
      Comment.parse_multiline_steps_comment
  · exact rule_discipline_of_wrapped Whitespace.parse_inline_body
      Whitespace.parse_inline_steps_ws
  · exact rule_discipline_of_wrapped Whitespace.parse_multiline_body
      Whitespace.parse_multiline_steps_ws
  · exact rule_discipline_of_wrapped Number.parse_body Number.parse_steps_number
  · exact rule_discipline_of_wrapped IntegerNumber.parse_body IntegerNumber.parse_steps_integer
  · exact fun r ctx => ⟨Literal.parse_steps_literal r ctx, Literal.parse_notFound_cursor_literal r ctx⟩
  · exact fun r ctx =>
      ⟨Expression.parse_steps_expression r ctx, Expression.parse_notFound_cursor_expression r ctx⟩
  · exact rule_discipline_of_wrapped VariableDeclaration.parse_body
      VariableDeclaration.parse_steps_vd
  · exact rule_discipline_of_wrapped ReturnStatement.parse_body ReturnStatement.parse_steps_rs
  · exact fun r ctx =>
      ⟨Statement.parse_steps_statement r ctx, Statement.parse_notFound_cursor_statement r ctx⟩
  · exact rule_discipline_of_wrapped MosfetFile.parse_body MosfetFile.parse_steps_file

/-- Witness for C1: the cursor discipline of `Statement::parse` at the
concrete input `"-"`, where the statement is `NotFound`: the exit is
forward-or-still and the exit cursor equals the entry cursor. -/
theorem claim_C1_witness :
    Steps (Reader.new "-".toList) (Statement.parse (Reader.new "-".toList) {}).2.1 ∧
    (Statement.parse (Reader.new "-".toList) {}).2.1.cursor
      = (Reader.new "-".toList).cursor :=
  ⟨(claim_C1.2.2.2.2.2.2.2.2.2.2.2.2.1 (Reader.new "-".toList) {}).1,
   (claim_C1.2.2.2.2.2.2.2.2.2.2.2.2.1 (Reader.new "-".toList) {}).2 (by decide)⟩

/-- C3: the three alternation rules try their alternatives in declared order:
`Statement` tries `VariableDeclaration` then `ReturnStatement`; `Expression`
tries `Literal` then variable access (`Identifier`); `Literal` tries `Number`.
In each, the first `Ok` is returned immediately, the first `Error` propagates
immediately without trying any later sibling (the sibling's parse is never
consulted), and `NotFound` results only when every alternative returned
`NotFound`. -/
theorem claim_C3 (r : Reader) (ctx : ParserContext) :
    ((∀ v r' c', VariableDeclaration.parse r ctx = (Except.ok v, r', c') →
       Statement.parse r ctx = (Except.ok (Statement.VariableDeclaration v), r', c')) ∧
     (∀ r' c', VariableDeclaration.parse r ctx
         = (Except.error ParserResultError.Error, r', c') →
       Statement.parse r ctx = (Except.error ParserResultError.Error, r', c')) ∧
     (∀ r1 c1, VariableDeclaration.parse r ctx
         = (Except.error ParserResultError.NotFound, r1, c1) →
       (∀ v r' c', ReturnStatement.parse r1 c1 = (Except.ok v, r', c') →
         Statement.parse r ctx = (Except.ok (Statement.ReturnStatement v), r', c')) ∧
       (∀ e r' c', ReturnStatement.parse r1 c1 = (Except.error e, r', c') →
         Statement.parse r ctx = (Except.error e, r', c')))) ∧
    ((∀ v r' c', Literal.parse r ctx = (Except.ok v, r', c') →
       Expression.parse r ctx = (Except.ok (Expression.Literal v), r', c')) ∧
     (∀ r' c', Literal.parse r ctx = (Except.error ParserResultError.Error, r', c') →
       Expression.parse r ctx = (Except.error ParserResultError.Error, r', c')) ∧
     (∀ r1 c1, Literal.parse r ctx = (Except.error ParserResultError.NotFound, r1, c1) →
       (∀ v r' c', Identifier.parse r1 c1 = (Except.ok v, r', c') →
         Expression.parse r ctx = (Except.ok (Expression.VariableAccess v), r', c')) ∧
       (∀ e r' c', Identifier.parse r1 c1 = (Except.error e, r', c') →
         Expression.parse r ctx = (Except.error e, r', c')))) ∧
    ((∀ v r' c', Number.parse r ctx = (Except.ok v, r', c') →
       Literal.parse r ctx = (Except.ok (Literal.Number v), r', c')) ∧
     (∀ e r' c', Number.parse r ctx = (Except.error e, r', c') →
       Literal.parse r ctx = (Except.error e, r', c'))) := by
  refine ⟨⟨?_, ?_, ?_⟩, ⟨?_, ?_, ?_⟩, ?_, ?_⟩
  · intro v r' c' h
    unfold Statement.parse
    rw [h]
  · intro r' c' h
    unfold Statement.parse
    rw [h]
  · intro r1 c1 h
    constructor
    · intro v r' c' h2
      unfold Statement.parse
      rw [h]
      simp only
      rw [h2]
    · intro e r' c' h2
      unfold Statement.parse
      rw [h]
      simp only
      rw [h2]
      cases e <;> rfl
  · intro v r' c' h
    unfold Expression.parse
    rw [h]
  · intro r' c' h
    unfold Expression.parse
    rw [h]
  · intro r1 c1 h
    constructor
    · intro v r' c' h2
      unfold Expression.parse
      rw [h]
      simp only
      rw [h2]
    · intro e r' c' h2
      unfold Expression.parse
      rw [h]
      simp only
      rw [h2]
      cases e <;> rfl
  · intro v r' c' h
    unfold Literal.parse
    rw [h]
  · intro e r' c' h
    unfold Literal.parse
    rw [h]
    cases e <;> rfl

/-- Witness for C3: on input `"-"` both statement alternatives are
`NotFound` in order, so `Statement::parse` itself is `NotFound` with the
reader rolled back. -/
theorem claim_C3_witness :
    Statement.parse (Reader.new "-".toList) {}
      = (Except.error ParserResultError.NotFound, Reader.new "-".toList, {}) :=
  ((claim_C3 (Reader.new "-".toList) {}).1.2.2 (Reader.new "-".toList) {}
      (by decide)).2
    ParserResultError.NotFound (Reader.new "-".toList) {} (by decide)

/-- C2 (amended): Errors raised by statement parsing do propagate to the top
of the file parse — a first statement signalling an error with input still
remaining makes `MosfetFile::parse` return Error; inside the statement loop a
statement Error aborts the loop with Error; and a loop Error propagates
through `MosfetFile::parse` — while (per the counterexample) Errors of the
whitespace/comment layer between statements are discarded. -/
theorem claim_C2 :
    (∀ (r : Reader) (ctx : ParserContext)
        (wres : Except ParserResultError Whitespace) (r1 : Reader)
        (c1 : ParserContext) (e : ParserResultError) (r2 : Reader)
        (c2 : ParserContext),
      Whitespace.parse_multiline r ctx = (wres, r1, c1) →
      Statement.parse r1 c1 = (Except.error e, r2, c2) →
      r2.remaining_length ≠ 0 →
      (MosfetFile.parse r ctx).1 = Except.error ParserResultError.Error) ∧
    (∀ (r : Reader) (ctx : ParserContext) (sts : List Statement)
        (wres : Except ParserResultError Whitespace) (r1 : Reader)
        (c1 : ParserContext) (r2 : Reader) (c2 : ParserContext),
      Whitespace.parse_multiline r ctx = (wres, r1, c1) →
      Statement.parse r1 c1 = (Except.error ParserResultError.Error, r2, c2) →
      MosfetFile.parse_loop r ctx sts
        = (Except.error ParserResultError.Error, r2, c2)) ∧
    (∀ (r : Reader) (ctx : ParserContext)
        (wres : Except ParserResultError Whitespace) (r1 : Reader)
        (c1 : ParserContext) (st : Statement) (r2 : Reader) (c2 : ParserContext)
        (e : ParserResultError) (r3 : Reader) (c3 : ParserContext),
      Whitespace.parse_multiline r ctx = (wres, r1, c1) →
      Statement.parse r1 c1 = (Except.ok st, r2, c2) →
      MosfetFile.parse_loop r2 c2 [st] = (Except.error e, r3, c3) →
      (MosfetFile.parse r ctx).1 = Except.error e) := by
  refine ⟨?_, ?_, ?_⟩
  · intro r ctx wres r1 c1 e r2 c2 hw hst hrem
    have hf : (MosfetFile.parse r ctx).1 = (MosfetFile.parse_body r r.cursor ctx).1 :=
      cursor_manager_fst r ctx MosfetFile.parse_body
    rw [hf]
    unfold MosfetFile.parse_body
    rw [hw]
    simp only
    rw [hst]
    simp only
    rw [if_neg hrem]
  · intro r ctx sts wres r1 c1 r2 c2 hw hst
    rw [MosfetFile.parse_loop.eq_def, hw]
    simp only
    rw [hst]
  · intro r ctx wres r1 c1 st r2 c2 e r3 c3 hw hst hloop
    have hf : (MosfetFile.parse r ctx).1 = (MosfetFile.parse_body r r.cursor ctx).1 :=
      cursor_manager_fst r ctx MosfetFile.parse_body
    rw [hf]
    unfold MosfetFile.parse_body
    rw [hw]
    simp only
    rw [hst]
    simp only
    rw [hloop]

/-- Witness for C2 (amended): on input `"t"` the first statement signals an
error (NotFound here) with input remaining, and the file parse is an Error. -/
theorem claim_C2_witness :
    (MosfetFile.parse (Reader.new "t".toList) {}).1
      = Except.error ParserResultError.Error :=
  claim_C2.1 (Reader.new "t".toList) {} (Except.error ParserResultError.NotFound)
    (Reader.new "t".toList) {} ParserResultError.NotFound
    (Reader.new "t".toList) {} (by decide) (by decide) (by decide)

/-- C5 (amended): in the digit-grouping loop, a separator run of any positive
length (not only a single `'_'`) is accepted between digit groups — the loop
consumes the whole run plus the following digit run and continues, so a
doubled separator does not abort (cf. the counterexample) — while a separator
run not followed by a digit rolls the reader back to exactly the loop entry
(just before that separator run), keeping everything consumed earlier; with no
separator at the current position the loop stops at the entry state. -/
theorem claim_C5 (digit_interval : List (Char × Char)) (r : Reader) :
    ((r.read_many_of SEPARATOR_RANGE).1 = none →
      number_grouping_loop digit_interval r = r) ∧
    (∀ s r1 d r2, r.read_many_of SEPARATOR_RANGE = (some s, r1) →
      r1.read_many_of digit_interval = (some d, r2) →
      number_grouping_loop digit_interval r
        = number_grouping_loop digit_interval r2) ∧
    (∀ s r1 r2, r.read_many_of SEPARATOR_RANGE = (some s, r1) →
      r1.read_many_of digit_interval = (none, r2) →
      number_grouping_loop digit_interval r = r) := by
  refine ⟨?_, ?_, ?_⟩
  · intro hnone
    have hr : (r.read_many_of SEPARATOR_RANGE).2 = r := Reader.read_many_of_none hnone
    conv_lhs => rw [number_grouping_loop.eq_def]
    rcases h1 : r.read_many_of SEPARATOR_RANGE with ⟨o, r1⟩
    rw [h1] at hnone hr
    obtain rfl : o = none := hnone
    simp only
    exact hr
  · intro s r1 d r2 h1 h2
    conv_lhs => rw [number_grouping_loop.eq_def]
    rw [h1]
    simp only
    rw [h2]
  · intro s r1 r2 h1 h2
    have hr2 : r2 = r1 := by
      have hn : (r1.read_many_of digit_interval).1 = none := by rw [h2]
      have := Reader.read_many_of_none hn
      rw [h2] at this
      exact this
    have hc1 : r1.content = r.content := by
      have := Reader.read_many_of_content r SEPARATOR_RANGE
      rw [h1] at this
      exact this
    conv_lhs => rw [number_grouping_loop.eq_def]
    rw [h1]
    simp only
    rw [h2]
    simp only
    show r2.restore r.save_cursor = r
    rw [hr2]
    unfold Reader.restore Reader.save_cursor
    rw [hc1]

/-- Witness for C5 (amended) at concrete inputs: at `"__2x"` the doubled
separator followed by a digit is consumed and the loop continues past both
runs; at `"_x"` the trailing separator makes the loop exit at the entry
state. -/
theorem claim_C5_witness :
    (number_grouping_loop DECIMAL_DIGIT_CHARS (Reader.new "__2x".toList)
      = number_grouping_loop DECIMAL_DIGIT_CHARS
          ((Reader.new "__2x".toList).consume 3)) ∧
    (number_grouping_loop DECIMAL_DIGIT_CHARS (Reader.new "_x".toList)
      = Reader.new "_x".toList) :=
  ⟨(claim_C5 DECIMAL_DIGIT_CHARS (Reader.new "__2x".toList)).2.1 "__".toList
      ((Reader.new "__2x".toList).consume 2) "2".toList
      ((Reader.new "__2x".toList).consume 3) (by decide) (by decide),
   (claim_C5 DECIMAL_DIGIT_CHARS (Reader.new "_x".toList)).2.2 "_".toList
      ((Reader.new "_x".toList).consume 1) ((Reader.new "_x".toList).consume 1)
      (by decide) (by decide)⟩

/-- C9: `Span::lines` returns the slice of the source between the nearest
newline strictly before the span start (or text start) and the nearest newline
at-or-after the span end (or text end): the lower boundary `a` sits at the
text start or right after a newline with no newline between `a` and the span
start; the upper boundary `b` sits at the text end or on a newline with no
newline between the span end and `b`; and `lines` is exactly the slice from
`a` to `b`. A boundary on a newline thus ends the preceding line: the empty
span at the `'\n'` of `"This\nis"` yields `"This"`, not `"is"` or `""`. -/
theorem claim_C9 :
    (∀ (s : Span), s.end_cursor.char_offset ≤ s.whole.length →
      ∃ a b, a ≤ s.start_cursor.char_offset ∧ s.end_cursor.char_offset ≤ b ∧
        (a = 0 ∨ s.whole.get? (a - 1) = some '\n') ∧
        ('\n' ∉ (s.whole.take s.start_cursor.char_offset).drop a) ∧
        (b = s.whole.length ∨ s.whole.get? b = some '\n') ∧
        ('\n' ∉ (s.whole.take b).drop s.end_cursor.char_offset) ∧
        Span.lines s = (s.whole.take b).drop a) ∧
    Span.lines ⟨"This\nis".toList, ⟨4, 4, 1, 5⟩, ⟨4, 4, 1, 5⟩⟩ = "This".toList := by
  constructor
  · intro s he
    have hlines : Span.lines s
        = (s.whole.take (match firstNewlineIdx s.content_after with
            | some v => v + s.end_cursor.char_offset
            | none => s.whole.length)).drop
          (match lastNewlineIdx s.content_before with
            | some v => v + 1
            | none => 0) := rfl
    rcases hl : lastNewlineIdx s.content_before with _ | v <;>
      rcases hf : firstNewlineIdx s.content_after with _ | w <;>
      rw [hl, hf] at hlines <;> simp only at hlines
    · refine ⟨0, s.whole.length, Nat.zero_le _, he, Or.inl rfl, ?_,
        Or.inl rfl, ?_, hlines⟩
      · simpa [Span.content_before] using lastNewlineIdx_none hl
      · rw [List.take_length]
        simpa [Span.content_after] using firstNewlineIdx_none hf
    · obtain ⟨hw1, hw2⟩ := firstNewlineIdx_some hf
      refine ⟨0, w + s.end_cursor.char_offset, Nat.zero_le _, Nat.le_add_left _ _,
        Or.inl rfl, ?_, Or.inr ?_, ?_, hlines⟩
      · simpa [Span.content_before] using lastNewlineIdx_none hl
      · rw [Span.content_after, List.get?_drop] at hw1
        rw [Nat.add_comm w s.end_cursor.char_offset]
        exact hw1
      · rw [List.drop_take]
        have : w + s.end_cursor.char_offset - s.end_cursor.char_offset = w := by omega
        rw [this]
        rw [Span.content_after] at hw2
        exact hw2
    · obtain ⟨hv1, hv2⟩ := lastNewlineIdx_some hl
      obtain ⟨hvlt, -⟩ := List.get?_eq_some.mp hv1
      have hvle : v + 1 ≤ s.start_cursor.char_offset := by
        rw [Span.content_before, List.length_take] at hvlt
        omega
      refine ⟨v + 1, s.whole.length, hvle, he, Or.inr ?_, ?_,
        Or.inl rfl, ?_, hlines⟩
      · rw [Span.content_before] at hv1
        have hlt : v < s.start_cursor.char_offset := by omega
        rw [List.get?_take hlt] at hv1
        simpa using hv1
      · rw [Span.content_before] at hv2
        exact hv2
      · rw [List.take_length]
        simpa [Span.content_after] using firstNewlineIdx_none hf
    · obtain ⟨hv1, hv2⟩ := lastNewlineIdx_some hl
      obtain ⟨hw1, hw2⟩ := firstNewlineIdx_some hf
      obtain ⟨hvlt, -⟩ := List.get?_eq_some.mp hv1
      have hvle : v + 1 ≤ s.start_cursor.char_offset := by
        rw [Span.content_before, List.length_take] at hvlt
        omega
      refine ⟨v + 1, w + s.end_cursor.char_offset, hvle, Nat.le_add_left _ _,
        Or.inr ?_, ?_, Or.inr ?_, ?_, hlines⟩
      · rw [Span.content_before] at hv1
        have hlt : v < s.start_cursor.char_offset := by omega
        rw [List.get?_take hlt] at hv1
        simpa using hv1
      · rw [Span.content_before] at hv2
        exact hv2
      · rw [Span.content_after, List.get?_drop] at hw1
        rw [Nat.add_comm w s.end_cursor.char_offset]
        exact hw1
      · rw [List.drop_take]
        have : w + s.end_cursor.char_offset - s.end_cursor.char_offset = w := by omega
        rw [this]
        rw [Span.content_after] at hw2
        exact hw2
  · decide

/-- Witness for C9: the boundary characterization applied to the empty span
sitting exactly on the `'\n'` of `"This\nis"`. -/
theorem claim_C9_witness :
    ∃ a b, a ≤ 4 ∧ 4 ≤ b ∧
      (a = 0 ∨ "This\nis".toList.get? (a - 1) = some '\n') ∧
      ('\n' ∉ ("This\nis".toList.take 4).drop a) ∧
      (b = "This\nis".toList.length ∨ "This\nis".toList.get? b = some '\n') ∧
      ('\n' ∉ ("This\nis".toList.take b).drop 4) ∧
      Span.lines ⟨"This\nis".toList, ⟨4, 4, 1, 5⟩, ⟨4, 4, 1, 5⟩⟩
        = ("This\nis".toList.take b).drop a :=
  claim_C9.1 ⟨"This\nis".toList, ⟨4, 4, 1, 5⟩, ⟨4, 4, 1, 5⟩⟩ (by decide)

/-- C10: for every `IntegerNumber` the parser produces, the digits span
delimits the whole consumed digit run — since the input splits as prefix text
(empty when no prefix) ++ digits content ++ leftover, interior `'_'`
separators consumed by the run sit inside the digits content, not outside it;
with no radix prefix the node's span IS its digits span, and with a prefix the
span's content is the prefix text immediately followed by the digits
content. -/
theorem claim_C10 (r : Reader) (ctx : ParserContext) (n : IntegerNumber)
    (h : (IntegerNumber.parse r ctx).1 = Except.ok n) :
    (n.hasPfx = false → n.span = n.digits) ∧
    n.span.content = n.pfxStr ++ n.digits.content ∧
    r.remaining = n.pfxStr
      ++ (n.digits.content ++ (IntegerNumber.parse r ctx).2.1.remaining) := by
  unfold IntegerNumber.parse at h ⊢
  rcases cursor_manager_cases r ctx IntegerNumber.parse_body with
    ⟨v, r', c', hbody, heq⟩ | ⟨r', c', hbody, heq⟩ | ⟨r', c', hbody, heq⟩ <;>
    rw [heq] at h ⊢
  · simp only at h ⊢
    obtain rfl : v = n := by simpa using h
    unfold IntegerNumber.parse_body at hbody
    revert hbody
    rcases hb : r.read BINARY_PFX with ⟨bb, r1⟩
    cases bb with
    | true =>
      simp only
      rcases hpn : IntegerNumber.parse_number r1 ctx BINARY_DIGIT_CHARS
          Radix.Binary true with ⟨res, rp, cp⟩
      cases res with
      | error e => intro hbody; simp at hbody
      | ok m =>
        intro hbody
        simp only [Prod.mk.injEq] at hbody
        obtain ⟨hv, hr, -⟩ := hbody
        obtain rfl : r' = rp := hr.symm
        obtain rfl : v = { m with span := r'.substring_to_current r.cursor, hasPfx := true } := by simpa using hv.symm
        obtain ⟨hc1, hc2, hc3⟩ := IntegerNumber.pfx_branch hb hpn
        refine ⟨fun hfalse => by simp at hfalse, ?_, ?_⟩
        · show (r'.substring_to_current r.cursor).content
            = (if true then m.radix.pfxStr else []) ++ m.digits.content
          rw [if_pos rfl, hc3]
          exact hc1
        · show r.remaining
            = (if true then m.radix.pfxStr else []) ++ (m.digits.content ++ r'.remaining)
          rw [if_pos rfl, hc3]
          exact hc2
    | false =>
      obtain rfl : r = r1 := by
        have h0 : (r.read BINARY_PFX).1 = false := by rw [hb]
        have := Reader.read_false h0
        rw [hb] at this
        exact this.symm
      simp only
      rcases ho : r.read OCTAL_PFX with ⟨bo, r2⟩
      cases bo with
      | true =>
        simp only
        rcases hpn : IntegerNumber.parse_number r2 ctx OCTAL_DIGIT_CHARS
            Radix.Octal true with ⟨res, rp, cp⟩
        cases res with
        | error e => intro hbody; simp at hbody
        | ok m =>
          intro hbody
          simp only [Prod.mk.injEq] at hbody
          obtain ⟨hv, hr, -⟩ := hbody
          obtain rfl : r' = rp := hr.symm
          obtain rfl : v = { m with span := r'.substring_to_current r.cursor, hasPfx := true } := by simpa using hv.symm
          obtain ⟨hc1, hc2, hc3⟩ := IntegerNumber.pfx_branch ho hpn
          refine ⟨fun hfalse => by simp at hfalse, ?_, ?_⟩
          · show (r'.substring_to_current r.cursor).content
              = (if true then m.radix.pfxStr else []) ++ m.digits.content
            rw [if_pos rfl, hc3]
            exact hc1
          · show r.remaining
              = (if true then m.radix.pfxStr else [])
                ++ (m.digits.content ++ r'.remaining)
            rw [if_pos rfl, hc3]
            exact hc2
      | false =>
        obtain rfl : r = r2 := by
          have h0 : (r.read OCTAL_PFX).1 = false := by rw [ho]
          have := Reader.read_false h0
          rw [ho] at this
          exact this.symm
        simp only
        rcases hh : r.read HEXADECIMAL_PFX with ⟨bh, r3⟩
        cases bh with
        | true =>
          simp only
          rcases hpn : IntegerNumber.parse_number r3 ctx HEXADECIMAL_DIGIT_CHARS
              Radix.Hexadecimal true with ⟨res, rp, cp⟩
          cases res with
          | error e => intro hbody; simp at hbody
          | ok m =>
            intro hbody
            simp only [Prod.mk.injEq] at hbody
            obtain ⟨hv, hr, -⟩ := hbody
            obtain rfl : r' = rp := hr.symm
            obtain rfl : v = { m with span := r'.substring_to_current r.cursor, hasPfx := true } := by simpa using hv.symm
            obtain ⟨hc1, hc2, hc3⟩ := IntegerNumber.pfx_branch hh hpn
            refine ⟨fun hfalse => by simp at hfalse, ?_, ?_⟩
            · show (r'.substring_to_current r.cursor).content
                = (if true then m.radix.pfxStr else []) ++ m.digits.content
              rw [if_pos rfl, hc3]
              exact hc1
            · show r.remaining
                = (if true then m.radix.pfxStr else [])
                  ++ (m.digits.content ++ r'.remaining)
              rw [if_pos rfl, hc3]
              exact hc2
        | false =>
          obtain rfl : r = r3 := by
            have h0 : (r.read HEXADECIMAL_PFX).1 = false := by rw [hh]
            have := Reader.read_false h0
            rw [hh] at this
            exact this.symm
          simp only
          rcases hd : r.read DECIMAL_PFX with ⟨bd, r4⟩
          cases bd with
          | true =>
            simp only
            rcases hpn : IntegerNumber.parse_number r4 ctx DECIMAL_DIGIT_CHARS
                Radix.Decimal true with ⟨res, rp, cp⟩
            cases res with
            | error e => intro hbody; simp at hbody
            | ok m =>
              intro hbody
              simp only [Prod.mk.injEq] at hbody
              obtain ⟨hv, hr, -⟩ := hbody
              obtain rfl : r' = rp := hr.symm
              obtain rfl : v = { m with span := r'.substring_to_current r.cursor, hasPfx := true } := by simpa using hv.symm
              obtain ⟨hc1, hc2, hc3⟩ := IntegerNumber.pfx_branch hd hpn
              refine ⟨fun hfalse => by simp at hfalse, ?_, ?_⟩
              · show (r'.substring_to_current r.cursor).content
                  = (if true then m.radix.pfxStr else []) ++ m.digits.content
                rw [if_pos rfl, hc3]
                exact hc1
              · show r.remaining
                  = (if true then m.radix.pfxStr else [])
                    ++ (m.digits.content ++ r'.remaining)
                rw [if_pos rfl, hc3]
                exact hc2
          | false =>
            obtain rfl : r = r4 := by
              have h0 : (r.read DECIMAL_PFX).1 = false := by rw [hd]
              have := Reader.read_false h0
              rw [hd] at this
              exact this.symm
            simp only
            rcases hpn : IntegerNumber.parse_number r ctx DECIMAL_DIGIT_CHARS
                Radix.Decimal false with ⟨res, rp, cp⟩
            cases res with
            | error e => intro hbody; simp at hbody
            | ok m =>
              intro hbody
              simp only [Prod.mk.injEq] at hbody
              obtain ⟨hv, hr, -⟩ := hbody
              obtain rfl : r' = rp := hr.symm
              obtain rfl : v = { m with span := r'.substring_to_current r.cursor, hasPfx := false } := by simpa using hv.symm
              have hok : (IntegerNumber.parse_number r ctx DECIMAL_DIGIT_CHARS
                  Radix.Decimal false).1 = Except.ok m := by rw [hpn]
              obtain ⟨hm_span, hm_dig, -, -, hm_rem⟩ :=
                IntegerNumber.parse_number_ok hok
              rw [hpn] at hm_span hm_rem
              refine ⟨fun _ => ?_, ?_, ?_⟩
              · show r'.substring_to_current r.cursor = m.digits
                rw [hm_dig, hm_span]
              · show (r'.substring_to_current r.cursor).content
                  = (if false then m.radix.pfxStr else []) ++ m.digits.content
                rw [if_neg (by simp), hm_dig, hm_span]
                rfl
              · show r.remaining
                  = (if false then m.radix.pfxStr else [])
                    ++ (m.digits.content ++ r'.remaining)
                rw [if_neg (by simp)]
                exact hm_rem
  · simp at h
  · simp at h

/-- Witness for C10 at the concrete inputs `"0x1_2"` and `"1_2"`: the parse
succeeds and the digit run including its interior separator sits entirely in
the digits span, with the overall span prefixed exactly when a radix prefix
was read. -/
theorem claim_C10_witness :
    ∃ n, (IntegerNumber.parse (Reader.new "0x1_2".toList) {}).1 = Except.ok n ∧
      (n.hasPfx = false → n.span = n.digits) ∧
      n.span.content = n.pfxStr ++ n.digits.content ∧
      (Reader.new "0x1_2".toList).remaining = n.pfxStr
        ++ (n.digits.content
          ++ (IntegerNumber.parse (Reader.new "0x1_2".toList) {}).2.1.remaining) := by
  refine ⟨(IntegerNumber.parse (Reader.new "0x1_2".toList) {}).1.toOption.get
    (by decide), ?_, ?_⟩
  · decide
  · exact claim_C10 (Reader.new "0x1_2".toList) {} _ (by decide)

end Mosc
